import Mathlib

/-!
Verification of the agent plugin-loading and command-dispatch subsystem of the
`claude-memory-bank` repository (`agent_loader.py`, `utils/agent_loader.py`,
`standalone_agent.py`, `web_interface.py`).

The development shallowly embeds the Python code:

* `PyVal` models the Python values that flow through the dispatcher
  (`None`, `bool`, `int`, `str`, `list`, `dict` with string keys, and an
  opaque `obj` constructor standing for any other Python object, carrying its
  type name and its `str()` rendering).  Floats are outside the model.
* Fallible Python code is embedded as `Except`-valued Lean functions whose
  error component carries `str(e)` of the raised exception.
* `json.dumps(v, indent=2)` is modelled by `json_dumps` (serialisation with
  two-space indentation; `ensure_ascii` transliteration of non-ASCII
  characters is not modelled, which does not affect any parse/print
  round-trip statement).  A generic JSON parser `jsonParse` plays the role of
  the "generic structured-text parser" of the specification.
* The two loader modules are embedded over a symbolic filesystem
  (`DirEntry`, `FileEntry`, `ModuleCode`): executing an agent source file
  either raises (with a message) or yields the set of top-level names it
  defines together with the behaviour of its `initialize` hook.  Function
  objects in assembled agent records are represented symbolically by
  `FuncRef` (defining file path plus attribute name), and the loaders emit an
  explicit event trace (`LoadEvent`) recording module executions,
  `sys.modules` assignments and `initialize` invocations.
-/

/-- Python values handled by the dispatcher.  `obj ty s` stands for a value of
any other type: `ty` is the type name and `s` the `str()` rendering. -/
inductive PyVal where
  | none : PyVal
  | bool : Bool → PyVal
  | int : Int → PyVal
  | str : String → PyVal
  | list : List PyVal → PyVal
  | dict : List (String × PyVal) → PyVal
  | obj : String → String → PyVal

/-- Association lookup, modelling Python dict key access `d[k]` /
`k in d` over insertion-ordered dictionaries. -/
def alookup {β : Type} (k : String) : List (String × β) → Option β
  | [] => Option.none
  | (k', v) :: rest => if k' = k then some v else alookup k rest

/-- Decimal digit character, `0 ≤ m ≤ 9` (other inputs unreachable). -/
def digitChar : Nat → Char
  | 0 => '0'
  | 1 => '1'
  | 2 => '2'
  | 3 => '3'
  | 4 => '4'
  | 5 => '5'
  | 6 => '6'
  | 7 => '7'
  | 8 => '8'
  | 9 => '9'
  | _ => '0'

/-- Decimal digits of a natural number, most significant first, accumulated
into `acc`; models the decimal rendering used by Python `str()` and
`json.dumps` for integers.  Structural recursion on explicit fuel (any fuel
above `n` gives the same digits, see `natDigitsFuel_irrel`). -/
def natDigitsFuel : Nat → Nat → List Char → List Char
  | 0, n, acc => digitChar n :: acc
  | fuel + 1, n, acc =>
    if n < 10 then digitChar n :: acc
    else natDigitsFuel fuel (n / 10) (digitChar (n % 10) :: acc)

/-- Decimal digits of a natural number, most significant first. -/
def natDigits (n : Nat) : List Char := natDigitsFuel n n []

/-- Decimal rendering of a Python integer (as in `str(n)` and
`json.dumps(n)`). -/
def intChars (n : Int) : List Char :=
  if n < 0 then '-' :: natDigits n.natAbs else natDigits n.natAbs

/-- Lower-case hexadecimal digit, `0 ≤ m ≤ 15` (other inputs unreachable). -/
def hexDig : Nat → Char
  | 0 => '0'
  | 1 => '1'
  | 2 => '2'
  | 3 => '3'
  | 4 => '4'
  | 5 => '5'
  | 6 => '6'
  | 7 => '7'
  | 8 => '8'
  | 9 => '9'
  | 10 => 'a'
  | 11 => 'b'
  | 12 => 'c'
  | 13 => 'd'
  | 14 => 'e'
  | 15 => 'f'
  | _ => '0'

/-- JSON string escaping of one character, as produced by `json.dumps`:
quote, backslash and the named control escapes, `\u00XX` for the remaining
control characters, all other characters verbatim. -/
def escapeChar (c : Char) : List Char :=
  if c = '"' then ['\\', '"']
  else if c = '\\' then ['\\', '\\']
  else if c = '\n' then ['\\', 'n']
  else if c = '\t' then ['\\', 't']
  else if c = '\r' then ['\\', 'r']
  else if c.toNat = 8 then ['\\', 'b']
  else if c.toNat = 12 then ['\\', 'f']
  else if c.toNat < 32 then
    ['\\', 'u', '0', '0', hexDig (c.toNat / 16), hexDig (c.toNat % 16)]
  else [c]

/-- JSON string escaping of a character sequence. -/
def escapeStr (s : List Char) : List Char :=
  s.foldr (fun c acc => escapeChar c ++ acc) []

/-- A run of `n` spaces: the indentation prefix `json.dumps` emits at
indentation level `n`. -/
def padL (n : Nat) : List Char := List.replicate n ' '

mutual

/-- Characters of `json.dumps(v, indent=2)` at indentation level `ind`
(the `obj` case is unreachable: `json_dumps` rejects non-serialisable
values before rendering). -/
def serChars (ind : Nat) : PyVal → List Char
  | .none => 'n' :: ['u', 'l', 'l']
  | .bool true => 't' :: ['r', 'u', 'e']
  | .bool false => 'f' :: ['a', 'l', 's', 'e']
  | .int n => intChars n
  | .str s => '"' :: (escapeStr s.data ++ ['"'])
  | .list [] => ['[', ']']
  | .list (x :: xs) =>
      '[' :: '\n' :: (padL (ind + 2) ++ serChars (ind + 2) x
        ++ serTail (ind + 2) xs ++ '\n' :: (padL ind ++ [']']))
  | .dict [] => ['{', '}']
  | .dict (kv :: kvs) =>
      '{' :: '\n' :: (padL (ind + 2) ++ serMember (ind + 2) kv
        ++ serDTail (ind + 2) kvs ++ '\n' :: (padL ind ++ ['}']))
  | .obj _ _ => []

/-- Remaining array items, each preceded by the `",\n" ++ indent`
separator `json.dumps(·, indent=2)` places between items. -/
def serTail (ind : Nat) : List PyVal → List Char
  | [] => []
  | x :: xs => ',' :: '\n' :: (padL ind ++ serChars ind x ++ serTail ind xs)

/-- One rendered object member: quoted escaped key, `": "`, value. -/
def serMember (ind : Nat) (kv : String × PyVal) : List Char :=
  '"' :: (escapeStr kv.1.data ++ '"' :: ':' :: ' ' :: serChars ind kv.2)

/-- Remaining object members, each preceded by the member separator. -/
def serDTail (ind : Nat) : List (String × PyVal) → List Char
  | [] => []
  | kv :: kvs => ',' :: '\n' :: (padL ind ++ serMember ind kv ++ serDTail ind kvs)

end

mutual

/-- Type name of the first non-JSON-serialisable object inside `v`, if any:
the object whose type `json.dumps` names in its `TypeError`. -/
def firstBad : PyVal → Option String
  | .obj ty _ => some ty
  | .list xs => firstBadL xs
  | .dict kvs => firstBadD kvs
  | _ => Option.none

/-- First non-serialisable object inside a list of values. -/
def firstBadL : List PyVal → Option String
  | [] => Option.none
  | x :: xs => match firstBad x with
    | some t => some t
    | Option.none => firstBadL xs

/-- First non-serialisable object inside the values of an object. -/
def firstBadD : List (String × PyVal) → Option String
  | [] => Option.none
  | kv :: kvs => match firstBad kv.2 with
    | some t => some t
    | Option.none => firstBadD kvs

end

/-- Model of `json.dumps(v, indent=2)`: raises `TypeError` (carrying the
offending type name) on a non-serialisable value, otherwise renders the
indented JSON text. -/
def json_dumps (v : PyVal) : Except String String :=
  match firstBad v with
  | some ty => Except.error ("Object of type " ++ ty ++ " is not JSON serializable")
  | Option.none => Except.ok (String.mk (serChars 0 v))

/-- Model of Python `str()` on the values the dispatcher can see.  The
dispatcher only applies it outside the `str`/`dict`/`list` cases; the
renderings for those cases are irrelevant to every theorem below. -/
def pyStr : PyVal → String
  | .none => "None"
  | .bool true => "True"
  | .bool false => "False"
  | .int n => String.mk (intChars n)
  | .str s => s
  | .obj _ s => s
  | .list _ => "<list>"
  | .dict _ => "<dict>"

/-- Agent record as seen by the dispatcher (`process_user_input`): a Python
dict that may or may not carry the `"config"` and `"process_command"` keys.
The entry point is embedded as the map from the command text to the result of
`process_command(agent, text)` — either a returned `PyVal` or a raised
exception carrying its `str()` text. -/
structure DAgent where
  config : Option (List (String × PyVal))
  process_command : Option (String → Except String PyVal)

/-- Exceptions `process_user_input` can itself raise to its caller. -/
inductive PyErr where
  | keyError (key : String)
deriving DecidableEq

/-- Body of the `try` block of `process_user_input`
(`standalone_agent.py` lines 193–209): call `agent["process_command"]`,
normalise the result to text, and turn every exception raised inside the
block into the `"Error processing command: "`-prefixed message.  Note that
the `agent["process_command"]` subscript itself sits inside the `try`, so a
missing key becomes a caught `KeyError` whose `str()` is the quoted key. -/
def processTryBody (agent : DAgent) (user_input : String) : String :=
  match agent.process_command with
  | Option.none => "Error processing command: " ++ "\x27process_command\x27"
  | some f =>
    match f user_input with
    | Except.error e => "Error processing command: " ++ e
    | Except.ok response =>
      match response with
      | .str s => s
      | .dict kvs =>
        match json_dumps (.dict kvs) with
        | Except.ok s => s
        | Except.error e => "Error processing command: " ++ e
      | .list xs =>
        match json_dumps (.list xs) with
        | Except.ok s => s
        | Except.error e => "Error processing command: " ++ e
      | v => pyStr v

/-- Model of `process_user_input` (`standalone_agent.py` lines 180–209).
The `logger.info` f-string evaluates `agent['config']['name']` before the
`try` block, so those two key lookups can raise to the caller; everything
afterwards is inside the `try` and always produces a string. -/
def process_user_input (agent : DAgent) (user_input : String) :
    Except PyErr String :=
  match agent.config with
  | Option.none => Except.error (.keyError "config")
  | some cfg =>
    match alookup "name" cfg with
    | Option.none => Except.error (.keyError "name")
    | some _ => Except.ok (processTryBody agent user_input)

/-! ### A generic JSON parser

The specification's round-trip property speaks of "a generic structured-text
(JSON) parser".  `jsonParse` below is such a parser: recursive descent over
the character list, insignificant whitespace skipped before every token. -/

/-- JSON insignificant whitespace. -/
def isWs (c : Char) : Bool :=
  c = ' ' || c = '\n' || c = '\t' || c = '\r'

/-- Skip leading insignificant whitespace. -/
def skipWs : List Char → List Char
  | [] => []
  | c :: rest => if isWs c then skipWs rest else c :: rest

/-- Value of a hexadecimal digit character (0 for non-digits; the parser
only ever applies it after `isHexDig`). -/
def hexVal (c : Char) : Nat :=
  if '0' ≤ c && c ≤ '9' then c.toNat - 48
  else if 'a' ≤ c && c ≤ 'f' then c.toNat - 87
  else if 'A' ≤ c && c ≤ 'F' then c.toNat - 55
  else 0

/-- Decode one string escape character (the character after a backslash,
other than `u`). -/
def unescapeChar (c : Char) : Option Char :=
  if c = '"' then some '"'
  else if c = '\\' then some '\\'
  else if c = '/' then some '/'
  else if c = 'n' then some '\n'
  else if c = 't' then some '\t'
  else if c = 'r' then some '\r'
  else if c = 'b' then some (Char.ofNat 8)
  else if c = 'f' then some (Char.ofNat 12)
  else Option.none

/-- Parse the body of a JSON string after the opening quote, decoding
escapes, up to and including the closing quote. -/
def parseStrBody : List Char → Option (List Char × List Char)
  | [] => Option.none
  | c :: rest =>
    if c = '"' then some ([], rest)
    else if c = '\\' then
      match rest with
      | [] => Option.none
      | e :: rest2 =>
        if e = 'u' then
          match rest2 with
          | h1 :: h2 :: h3 :: h4 :: rest3 =>
            match parseStrBody rest3 with
            | some (s, r) =>
              some (Char.ofNat
                (hexVal h1 * 4096 + hexVal h2 * 256 + hexVal h3 * 16 + hexVal h4)
                :: s, r)
            | Option.none => Option.none
          | _ => Option.none
        else
          match unescapeChar e with
          | some d =>
            match parseStrBody rest2 with
            | some (s, r) => some (d :: s, r)
            | Option.none => Option.none
          | Option.none => Option.none
    else
      match parseStrBody rest with
      | some (s, r) => some (c :: s, r)
      | Option.none => Option.none

/-- Strip the expected literal characters `pat` from the front of `s`. -/
def expectChars (pat : List Char) (s : List Char) : Option (List Char) :=
  match pat, s with
  | [], s => some s
  | p :: pat, c :: s => if c = p then expectChars pat s else Option.none
  | _ :: _, [] => Option.none

/-- Digits read back as a natural number. -/
def readNat (l : List Char) : Nat :=
  l.foldl (fun a c => 10 * a + (c.toNat - 48)) 0

/-- Parse a nonempty run of decimal digits. -/
def parseNatNum (s : List Char) : Option (Nat × List Char) :=
  match s.takeWhile Char.isDigit with
  | [] => Option.none
  | ds => some (readNat ds, s.dropWhile Char.isDigit)

mutual

/-- Parse one JSON value (fuel-bounded recursive descent). -/
def parseVal : Nat → List Char → Option (PyVal × List Char)
  | 0, _ => Option.none
  | fuel + 1, input =>
    match skipWs input with
    | [] => Option.none
    | c :: rest =>
      if c = '{' then
        match skipWs rest with
        | [] => Option.none
        | c2 :: rest2 =>
          if c2 = '}' then some (.dict [], rest2)
          else parseMembers fuel (c2 :: rest2) []
      else if c = '[' then
        match skipWs rest with
        | [] => Option.none
        | c2 :: rest2 =>
          if c2 = ']' then some (.list [], rest2)
          else parseItems fuel (c2 :: rest2) []
      else if c = '"' then
        match parseStrBody rest with
        | some (s, r) => some (.str (String.mk s), r)
        | Option.none => Option.none
      else if c = 't' then
        match expectChars ['r', 'u', 'e'] rest with
        | some r => some (.bool true, r)
        | Option.none => Option.none
      else if c = 'f' then
        match expectChars ['a', 'l', 's', 'e'] rest with
        | some r => some (.bool false, r)
        | Option.none => Option.none
      else if c = 'n' then
        match expectChars ['u', 'l', 'l'] rest with
        | some r => some (.none, r)
        | Option.none => Option.none
      else if c = '-' then
        match parseNatNum rest with
        | some (m, r) => some (.int (-(m : Int)), r)
        | Option.none => Option.none
      else
        match parseNatNum (c :: rest) with
        | some (m, r) => some (.int (m : Int), r)
        | Option.none => Option.none

/-- Parse the remaining items of a nonempty JSON array, accumulating into
`acc`; entered just past the opening bracket or a comma. -/
def parseItems : Nat → List Char → List PyVal → Option (PyVal × List Char)
  | 0, _, _ => Option.none
  | fuel + 1, s, acc =>
    match parseVal fuel s with
    | some (v, rest) =>
      (match skipWs rest with
      | [] => Option.none
      | c :: rest2 =>
        if c = ',' then parseItems fuel rest2 (acc ++ [v])
        else if c = ']' then some (.list (acc ++ [v]), rest2)
        else Option.none)
    | Option.none => Option.none

/-- Parse the remaining members of a nonempty JSON object, accumulating into
`acc`; entered just past the opening brace or a comma. -/
def parseMembers : Nat → List Char → List (String × PyVal) →
    Option (PyVal × List Char)
  | 0, _, _ => Option.none
  | fuel + 1, s, acc =>
    match skipWs s with
    | [] => Option.none
    | c :: rest =>
      if c = '"' then
        match parseStrBody rest with
        | some (k, rest2) =>
          (match skipWs rest2 with
          | [] => Option.none
          | c2 :: rest3 =>
            if c2 = ':' then
              match parseVal fuel rest3 with
              | some (v, rest4) =>
                (match skipWs rest4 with
                | [] => Option.none
                | c3 :: rest5 =>
                  if c3 = ',' then
                    parseMembers fuel rest5 (acc ++ [(String.mk k, v)])
                  else if c3 = '}' then
                    some (.dict (acc ++ [(String.mk k, v)]), rest5)
                  else Option.none)
              | Option.none => Option.none
            else Option.none)
        | Option.none => Option.none
      else Option.none

end

/-- Parse a complete JSON document: one value followed only by whitespace. -/
def jsonParse (s : String) : Option PyVal :=
  match parseVal (s.length + 1) s.data with
  | some (v, rest) => if skipWs rest = [] then some v else Option.none
  | Option.none => Option.none

mutual

/-- Structural size of a value, used as a lower bound for the parser fuel. -/
def countP : PyVal → Nat
  | .list xs => 1 + countL xs
  | .dict kvs => 1 + countD kvs
  | _ => 1

/-- Size contribution of array items. -/
def countL : List PyVal → Nat
  | [] => 1
  | x :: xs => 1 + countP x + countL xs

/-- Size contribution of object members. -/
def countD : List (String × PyVal) → Nat
  | [] => 1
  | kv :: kvs => 1 + countP kv.2 + countD kvs

end

/-- The continuation after a serialised value never starts with a digit (so
the number parser cannot overrun). -/
def goodRestB (l : List Char) : Bool :=
  match l with
  | [] => true
  | c :: _ => !c.isDigit

/-! ## The loader model

`agent_loader.py` and `utils/agent_loader.py` are embedded over a symbolic
filesystem.  Executing an agent source file (`exec_module`) either raises —
carrying `str(e)` — or yields `ModuleAttrs`: which relevant top-level names
the file defines, the values of the three identity constants, and the
behaviour of the `initialize` hook when invoked on an agent record.
Function objects stored in agent records are identified symbolically by the
path of the defining source file plus the attribute name (`FuncRef`); the
loaders additionally emit an event trace recording module executions,
`sys.modules` assignments, and `initialize` invocations. -/

/-- A Python function object, identified by the path of the source file
whose execution defined it and by its top-level name. -/
structure FuncRef where
  path : String
  fname : String
deriving DecidableEq

/-- The uniform agent record assembled by the loaders: the Python dict
`{"config": ..., "dir": ..., "process_command": ...}` plus the optional
entries `"initialize"` (field `initFn`), `"cleanup"` (field `cleanupFn`) and
`"get_status"` (field `statusFn`), each `some` exactly when the dict carries
the key. -/
structure AgentRec where
  config : List (String × PyVal)
  dir : String
  process_command : FuncRef
  initFn : Option FuncRef
  cleanupFn : Option FuncRef
  statusFn : Option FuncRef

/-- Result of executing an agent source file: the relevant top-level names it
defines.  `agentName`/`agentDescription`/`agentVersion` model the constants
`AGENT_NAME`/`AGENT_DESCRIPTION`/`AGENT_VERSION` (present or not);
`hasInit`, `hasCleanup`, `hasGetStatus` model `hasattr` for `"initialize"`,
`"cleanup"`, `"get_status"`; `initBehavior r` is the outcome of calling the
module's `initialize` on the record `r` (meaningful only when `hasInit`). -/
structure ModuleAttrs where
  agentName : Option PyVal
  agentDescription : Option PyVal
  agentVersion : Option PyVal
  hasProcessCommand : Bool
  hasInit : Bool
  hasCleanup : Bool
  hasGetStatus : Bool
  initBehavior : AgentRec → Except String Unit

/-- What the loader can observe about a directory: `os.path.isdir`, the
`config.json` manifest (absent / unparseable / parsed object) and the
`agent.py` code file (absent, or its execution outcome). -/
structure DirEntry where
  isDir : Bool
  configJson : Option (Except Unit (List (String × PyVal)))
  agentPy : Option (Except String ModuleAttrs)

/-- What the loader can observe about a single-file agent path:
`os.path.isfile` and the execution outcome of the file. -/
structure FileEntry where
  isFile : Bool
  code : Except String ModuleAttrs

/-- Update the `sys.modules` mapping (module name to the path of the source
file most recently executed under that name). -/
def setMod (sysm : List (String × String)) (name path : String) :
    List (String × String) :=
  match sysm with
  | [] => [(name, path)]
  | (n, p) :: rest => if n = name then (name, path) :: rest else (n, p) :: setMod rest name path

/-- Observable side effects of a load, in program order. -/
inductive LoadEvent where
  | setSysModule (name path : String)
  | execModule (path : String)
  | initCalled (rec : AgentRec)

/-- Does the event record an `initialize` invocation? -/
def LoadEvent.isInitCall : LoadEvent → Bool
  | .initCalled _ => true
  | _ => false

/-- Outcome of one loader call: the returned record or the raised
`ValueError` text, the updated `sys.modules`, and the event trace. -/
structure LoadOut where
  result : Except String AgentRec
  sysm : List (String × String)
  events : List LoadEvent

/-- Characters after the last `/`, modelling `os.path.basename`. -/
def basenameChars (l : List Char) : List Char :=
  ((l.reverse).takeWhile (fun c => c ≠ '/')).reverse

/-- Characters before the last `/` (empty if none), modelling
`os.path.dirname`. -/
def dirnameStr (p : String) : String :=
  if p.data.contains '/' then
    String.mk (((p.data.reverse).dropWhile (fun c => c ≠ '/')).tail.reverse)
  else ""

/-- Name part of `os.path.splitext` applied to a basename: cut at the last
dot, except when the only dot is the leading one. -/
def stemChars (l : List Char) : List Char :=
  match (l.reverse).dropWhile (fun c => c ≠ '.') with
  | [] => l
  | _ :: [] => l
  | _ :: pre => pre.reverse

/-- The synthetic module name `load_agent_from_file` derives from the agent
path: `os.path.splitext(os.path.basename(agent_file))[0]`. -/
def moduleNameOfFile (agent_file : String) : String :=
  String.mk (stemChars (basenameChars agent_file.data))

/-- The agent record `load_agent_from_dir` assembles for directory `d`,
manifest `config` and executed module `m` (names the structure literal of
`agent_loader.py` lines 128–138). -/
def mkDirAgent (d : String) (config : List (String × PyVal))
    (m : ModuleAttrs) : AgentRec :=
  { config := config, dir := d,
    process_command := ⟨d ++ "/agent.py", "process_command"⟩,
    initFn := if m.hasInit then some ⟨d ++ "/agent.py", "initialize"⟩
      else Option.none,
    cleanupFn := if m.hasCleanup then some ⟨d ++ "/agent.py", "cleanup"⟩
      else Option.none,
    statusFn := if m.hasGetStatus then some ⟨d ++ "/agent.py", "get_status"⟩
      else Option.none }

/-- The agent record `agent_loader.load_agent_from_file` assembles for path
`p`, identity values `nm`/`ds`/`vr` and executed module `m`. -/
def mkFileAgent (p : String) (nm ds vr : PyVal) (m : ModuleAttrs) : AgentRec :=
  { config := [("name", nm), ("description", ds), ("version", vr)],
    dir := dirnameStr p,
    process_command := ⟨p, "process_command"⟩,
    initFn := if m.hasInit then some ⟨p, "initialize"⟩ else Option.none,
    cleanupFn := if m.hasCleanup then some ⟨p, "cleanup"⟩ else Option.none,
    statusFn := if m.hasGetStatus then some ⟨p, "get_status"⟩
      else Option.none }

/-- The (hook-free) agent record `utils.agent_loader.load_agent_from_file`
assembles: only the three mandatory entries. -/
def mkUtilsFileAgent (p : String) (nm ds vr : PyVal) : AgentRec :=
  { config := [("name", nm), ("description", ds), ("version", vr)],
    dir := dirnameStr p,
    process_command := ⟨p, "process_command"⟩,
    initFn := Option.none, cleanupFn := Option.none,
    statusFn := Option.none }

namespace AgentLoader

/-- Model of `agent_loader.load_agent_from_dir` (`agent_loader.py`
lines 77–147).  `fs` is the observable filesystem, `sysm` the incoming
`sys.modules` state, `agent_dir` the supplied directory path.  All raised
`ValueError`s are returned as `Except.error` with the exception text; the
inner `try`/`except Exception` re-wraps every failure inside the module-load
block with the `"Error loading agent module: "` prefix. -/
def load_agent_from_dir (fs : String → DirEntry)
    (sysm : List (String × String)) (agent_dir : String) : LoadOut :=
  let d := fs agent_dir
  if ¬ d.isDir then
    ⟨Except.error ("Agent directory does not exist: " ++ agent_dir), sysm, []⟩
  else
    let config_path := agent_dir ++ "/config.json"
    match d.configJson with
    | Option.none =>
      ⟨Except.error ("Missing config.json in agent directory: " ++ agent_dir), sysm, []⟩
    | some (Except.error _) =>
      ⟨Except.error ("Invalid JSON in config file: " ++ config_path), sysm, []⟩
    | some (Except.ok config) =>
      if (alookup "name" config).isNone then
        ⟨Except.error ("Missing required field \x27name\x27 in config: " ++ config_path),
          sysm, []⟩
      else if (alookup "description" config).isNone then
        ⟨Except.error
          ("Missing required field \x27description\x27 in config: " ++ config_path),
          sysm, []⟩
      else if (alookup "version" config).isNone then
        ⟨Except.error ("Missing required field \x27version\x27 in config: " ++ config_path),
          sysm, []⟩
      else
        let agent_py_path := agent_dir ++ "/agent.py"
        match d.agentPy with
        | Option.none =>
          ⟨Except.error ("Missing agent.py in agent directory: " ++ agent_dir), sysm, []⟩
        | some code =>
          let sysm2 := setMod sysm "agent_module" agent_py_path
          let evs0 := [LoadEvent.setSysModule "agent_module" agent_py_path,
                       LoadEvent.execModule agent_py_path]
          match code with
          | Except.error e =>
            ⟨Except.error ("Error loading agent module: " ++ e), sysm2, evs0⟩
          | Except.ok m =>
            if ¬ m.hasProcessCommand then
              ⟨Except.error
                ("Error loading agent module: Missing required function \x27process_command\x27 in agent module: "
                  ++ agent_py_path), sysm2, evs0⟩
            else
              let agent : AgentRec := mkDirAgent agent_dir config m
              if m.hasInit then
                match m.initBehavior agent with
                | Except.ok _ =>
                  ⟨Except.ok agent, sysm2, evs0 ++ [LoadEvent.initCalled agent]⟩
                | Except.error e =>
                  ⟨Except.error ("Error loading agent module: " ++ e), sysm2,
                    evs0 ++ [LoadEvent.initCalled agent]⟩
              else ⟨Except.ok agent, sysm2, evs0⟩

/-- Model of `agent_loader.load_agent_from_file` (`agent_loader.py`
lines 150–210): single-file form, identity from the three `AGENT_*`
constants, module name derived from the file basename; attaches the optional
hooks and invokes `initialize` exactly like the directory form. -/
def load_agent_from_file (fsF : String → FileEntry)
    (sysm : List (String × String)) (agent_file : String) : LoadOut :=
  let fe := fsF agent_file
  if ¬ fe.isFile then
    ⟨Except.error ("Agent file does not exist: " ++ agent_file), sysm, []⟩
  else
    let agent_dir := dirnameStr agent_file
    let module_name := moduleNameOfFile agent_file
    let sysm2 := setMod sysm module_name agent_file
    let evs0 := [LoadEvent.setSysModule module_name agent_file,
                 LoadEvent.execModule agent_file]
    match fe.code with
    | Except.error e =>
      ⟨Except.error ("Error loading agent module: " ++ e), sysm2, evs0⟩
    | Except.ok m =>
      match m.agentName with
      | Option.none =>
        ⟨Except.error
          ("Error loading agent module: Missing required attribute \x27AGENT_NAME\x27 in agent module: "
            ++ agent_file), sysm2, evs0⟩
      | some nm =>
        match m.agentDescription with
        | Option.none =>
          ⟨Except.error
            ("Error loading agent module: Missing required attribute \x27AGENT_DESCRIPTION\x27 in agent module: "
              ++ agent_file), sysm2, evs0⟩
        | some ds =>
          match m.agentVersion with
          | Option.none =>
            ⟨Except.error
              ("Error loading agent module: Missing required attribute \x27AGENT_VERSION\x27 in agent module: "
                ++ agent_file), sysm2, evs0⟩
          | some vr =>
            if ¬ m.hasProcessCommand then
              ⟨Except.error
                ("Error loading agent module: Missing required function \x27process_command\x27 in agent module: "
                  ++ agent_file), sysm2, evs0⟩
            else
              let agent : AgentRec := mkFileAgent agent_file nm ds vr m
              if m.hasInit then
                match m.initBehavior agent with
                | Except.ok _ =>
                  ⟨Except.ok agent, sysm2, evs0 ++ [LoadEvent.initCalled agent]⟩
                | Except.error e =>
                  ⟨Except.error ("Error loading agent module: " ++ e), sysm2,
                    evs0 ++ [LoadEvent.initCalled agent]⟩
              else ⟨Except.ok agent, sysm2, evs0⟩

end AgentLoader

namespace UtilsAgentLoader

/-- Model of `utils.agent_loader.load_agent_from_dir`
(`utils/agent_loader.py` lines 62–133).  The function is line-for-line
identical to `agent_loader.load_agent_from_dir`, so it is embedded as the
same Lean function. -/
def load_agent_from_dir (fs : String → DirEntry)
    (sysm : List (String × String)) (agent_dir : String) : LoadOut :=
  AgentLoader.load_agent_from_dir fs sysm agent_dir

/-- Model of `utils.agent_loader.load_agent_from_file`
(`utils/agent_loader.py` lines 10–60): the "simplified" file loader.
Unlike `agent_loader.load_agent_from_file` it returns the record right after
assembling the three mandatory entries — it neither attaches the optional
`initialize`/`cleanup`/`get_status` functions nor invokes `initialize`. -/
def load_agent_from_file (fsF : String → FileEntry)
    (sysm : List (String × String)) (agent_file : String) : LoadOut :=
  let fe := fsF agent_file
  if ¬ fe.isFile then
    ⟨Except.error ("Agent file does not exist: " ++ agent_file), sysm, []⟩
  else
    let agent_dir := dirnameStr agent_file
    let module_name := moduleNameOfFile agent_file
    let sysm2 := setMod sysm module_name agent_file
    let evs0 := [LoadEvent.setSysModule module_name agent_file,
                 LoadEvent.execModule agent_file]
    match fe.code with
    | Except.error e =>
      ⟨Except.error ("Error loading agent module: " ++ e), sysm2, evs0⟩
    | Except.ok m =>
      match m.agentName with
      | Option.none =>
        ⟨Except.error
          ("Error loading agent module: Missing required attribute \x27AGENT_NAME\x27 in agent module: "
            ++ agent_file), sysm2, evs0⟩
      | some nm =>
        match m.agentDescription with
        | Option.none =>
          ⟨Except.error
            ("Error loading agent module: Missing required attribute \x27AGENT_DESCRIPTION\x27 in agent module: "
              ++ agent_file), sysm2, evs0⟩
        | some ds =>
          match m.agentVersion with
          | Option.none =>
            ⟨Except.error
              ("Error loading agent module: Missing required attribute \x27AGENT_VERSION\x27 in agent module: "
                ++ agent_file), sysm2, evs0⟩
          | some vr =>
            if ¬ m.hasProcessCommand then
              ⟨Except.error
                ("Error loading agent module: Missing required function \x27process_command\x27 in agent module: "
                  ++ agent_file), sysm2, evs0⟩
            else
              let agent : AgentRec := mkUtilsFileAgent agent_file nm ds vr
              ⟨Except.ok agent, sysm2, evs0⟩

end UtilsAgentLoader

namespace WebInterface

/-- Model of `os.path.join(a, b)` for the relative entries enumerated by
`load_all_agents`. -/
def joinPath (a b : String) : String := a ++ "/" ++ b

/-- One iteration of the loop body of `load_all_agents`
(`web_interface.py` lines 75–86): attempt the load; on success insert the
record under the subdirectory name, on failure log and continue — the
accumulator is untouched. -/
def loadAllStep (fs : String → DirEntry) (agentsDir : String)
    (st : List (String × AgentRec) × List (String × String)) (d : String) :
    List (String × AgentRec) × List (String × String) :=
  let out := UtilsAgentLoader.load_agent_from_dir fs st.2 (joinPath agentsDir d)
  match out.result with
  | Except.ok a => (st.1 ++ [(d, a)], out.sysm)
  | Except.error _ => (st.1, out.sysm)

/-- Model of `web_interface.load_all_agents` (`web_interface.py`
lines 61–87): if the agents root is missing return the empty mapping,
otherwise attempt to load every immediate subdirectory, skipping failures.
`entries` is `os.listdir(agents_dir)`. -/
def load_all_agents (fs : String → DirEntry) (rootExists : Bool)
    (agentsDir : String) (entries : List String)
    (sysm : List (String × String)) :
    List (String × AgentRec) × List (String × String) :=
  if ¬ rootExists then ([], sysm)
  else
    (entries.filter (fun d => (fs (joinPath agentsDir d)).isDir)).foldl
      (loadAllStep fs agentsDir) ([], sysm)

end WebInterface

/-! ## Concrete fixtures used by witnesses and counterexamples -/

/-- Manifest of the demo agent fixture. -/
def cfgDemo : List (String × PyVal) :=
  [("name", .str "demo"), ("description", .str "d"), ("version", .str "1.0.0")]

/-- Executed module defining only `process_command` (plus the file-form
identity constants). -/
def attrsPlain : ModuleAttrs :=
  { agentName := some (.str "demo"), agentDescription := some (.str "d"),
    agentVersion := some (.str "1.0.0"), hasProcessCommand := true,
    hasInit := false, hasCleanup := false, hasGetStatus := false,
    initBehavior := fun _ => Except.ok () }

/-- Executed module whose `initialize` hook raises `boom`. -/
def attrsInitRaises : ModuleAttrs :=
  { attrsPlain with
    hasInit := true,
    initBehavior := fun _ => Except.error "boom" }

/-- Executed module defining all three optional hooks; `initialize`
succeeds. -/
def attrsAllHooks : ModuleAttrs :=
  { attrsPlain with
    hasInit := true,
    hasCleanup := true,
    hasGetStatus := true }

/-- A well-formed agent directory executing to module `m`. -/
def dirOf (m : ModuleAttrs) : DirEntry :=
  { isDir := true, configJson := some (Except.ok cfgDemo),
    agentPy := some (Except.ok m) }

/-- A directory that exists but contains no `config.json`. -/
def dirNoConfig : DirEntry :=
  { isDir := true, configJson := Option.none,
    agentPy := some (Except.ok attrsPlain) }

/-- A path that is not a directory. -/
def dirAbsent : DirEntry :=
  { isDir := false, configJson := Option.none, agentPy := Option.none }

/-- Test filesystem with two loadable agent directories, one whose
`initialize` raises, and one without a manifest. -/
def fsDemo : String → DirEntry := fun p =>
  if p = "/agents/good" then dirOf attrsPlain
  else if p = "/agents/hooks" then dirOf attrsAllHooks
  else if p = "/agents/init" then dirOf attrsInitRaises
  else if p = "/agents/bad" then dirNoConfig
  else dirAbsent

/-- Test file map for the single-file loaders. -/
def fsfDemo : String → FileEntry := fun p =>
  if p = "/agents/solo.py" then { isFile := true, code := Except.ok attrsAllHooks }
  else { isFile := false, code := Except.error "absent" }

/-- Round-trip property of a single value: its serialisation, inside any
whitespace/continuation context, parses back to exactly the value. -/
def ParsesBack (v : PyVal) : Prop :=
  ∀ fuel ind rest, countP v < fuel → goodRestB rest = true →
    parseVal fuel (serChars ind v ++ rest) = some (v, rest)

/-! ## Round-trip infrastructure: decimal digits -/

theorem digitChar_isDigit (m : Nat) : (digitChar m).isDigit = true := by
  rcases Nat.lt_or_ge m 10 with hm | hm
  · interval_cases m <;> rfl
  · obtain ⟨k, rfl⟩ : ∃ k, m = k + 10 := ⟨m - 10, by omega⟩
    rfl

theorem digitChar_toNat (m : Nat) (hm : m < 10) :
    (digitChar m).toNat = 48 + m := by
  interval_cases m <;> rfl

theorem natDigitsFuel_lt10 (n : Nat) (h : n < 10) :
    ∀ fuel acc, natDigitsFuel fuel n acc = digitChar n :: acc := by
  intro fuel acc
  cases fuel with
  | zero => rfl
  | succ fuel => simp [natDigitsFuel, h]

theorem natDigitsFuel_acc : ∀ fuel n acc,
    natDigitsFuel fuel n acc = natDigitsFuel fuel n [] ++ acc := by
  intro fuel
  induction fuel with
  | zero => intro n acc; simp [natDigitsFuel]
  | succ fuel ih =>
    intro n acc
    by_cases h : n < 10
    · simp [natDigitsFuel, h]
    · simp only [natDigitsFuel, if_neg h]
      rw [ih (n / 10) (digitChar (n % 10) :: acc), ih (n / 10) [digitChar (n % 10)]]
      simp

theorem natDigitsFuel_irrel : ∀ n fuel₁ fuel₂ acc, n ≤ fuel₁ → n ≤ fuel₂ →
    natDigitsFuel fuel₁ n acc = natDigitsFuel fuel₂ n acc := by
  intro n
  induction n using Nat.strong_induction_on with
  | _ n ih =>
    intro fuel₁ fuel₂ acc h₁ h₂
    by_cases h : n < 10
    · rw [natDigitsFuel_lt10 n h, natDigitsFuel_lt10 n h]
    · obtain ⟨f₁, rfl⟩ : ∃ f, fuel₁ = f + 1 := ⟨fuel₁ - 1, by omega⟩
      obtain ⟨f₂, rfl⟩ : ∃ f, fuel₂ = f + 1 := ⟨fuel₂ - 1, by omega⟩
      simp only [natDigitsFuel, if_neg h]
      exact ih (n / 10) (by omega) f₁ f₂ _ (by omega) (by omega)

theorem natDigits_lt10 (n : Nat) (h : n < 10) : natDigits n = [digitChar n] :=
  natDigitsFuel_lt10 n h n []

theorem natDigits_step (n : Nat) (h : 10 ≤ n) :
    natDigits n = natDigits (n / 10) ++ [digitChar (n % 10)] := by
  obtain ⟨m, rfl⟩ : ∃ m, n = m + 1 := ⟨n - 1, by omega⟩
  show natDigitsFuel (m + 1) (m + 1) [] = _
  rw [show natDigitsFuel (m + 1) (m + 1) [] =
      natDigitsFuel m ((m + 1) / 10) [digitChar ((m + 1) % 10)] by
    simp [natDigitsFuel, Nat.not_lt.mpr h]]
  rw [natDigitsFuel_acc m ((m + 1) / 10) [digitChar ((m + 1) % 10)]]
  rw [natDigitsFuel_irrel ((m + 1) / 10) m ((m + 1) / 10) [] (by omega) (by omega)]
  rfl

theorem natDigits_digits (n : Nat) : ∀ c ∈ natDigits n, c.isDigit = true := by
  induction n using Nat.strong_induction_on with
  | _ n ih =>
    by_cases h : n < 10
    · rw [natDigits_lt10 n h]
      intro c hc
      simp at hc
      rw [hc]; exact digitChar_isDigit n
    · rw [natDigits_step n (by omega)]
      intro c hc
      rcases List.mem_append.mp hc with hc | hc
      · exact ih (n / 10) (by omega) c hc
      · simp at hc; rw [hc]; exact digitChar_isDigit _

theorem natDigits_ne_nil (n : Nat) : natDigits n ≠ [] := by
  by_cases h : n < 10
  · rw [natDigits_lt10 n h]; simp
  · rw [natDigits_step n (by omega)]; simp

theorem readNat_natDigits : ∀ n, readNat (natDigits n) = n := by
  intro n
  induction n using Nat.strong_induction_on with
  | _ n ih =>
    by_cases h : n < 10
    · rw [natDigits_lt10 n h]
      show 10 * 0 + ((digitChar n).toNat - 48) = n
      rw [digitChar_toNat n h]; omega
    · rw [natDigits_step n (by omega)]
      show List.foldl _ 0 (natDigits (n / 10) ++ [digitChar (n % 10)]) = n
      rw [List.foldl_append]
      have h1 : List.foldl (fun a c => 10 * a + (c.toNat - 48)) 0 (natDigits (n / 10))
          = n / 10 := ih (n / 10) (by omega)
      rw [h1]
      show 10 * (n / 10) + ((digitChar (n % 10)).toNat - 48) = n
      rw [digitChar_toNat (n % 10) (by omega)]; omega

/-! ## Round-trip infrastructure: token-level lemmas -/

theorem takeWhile_all_append (p : Char → Bool) :
    ∀ (l r : List Char), (∀ c ∈ l, p c = true) →
    (∀ c, r.head? = some c → p c = false) →
    (l ++ r).takeWhile p = l ∧ (l ++ r).dropWhile p = r := by
  intro l
  induction l with
  | nil =>
    intro r _ hr
    cases r with
    | nil => simp
    | cons c r' =>
      have := hr c rfl
      simp [List.takeWhile, List.dropWhile, this]
  | cons a l ih =>
    intro r hl hr
    have ha : p a = true := hl a (by simp)
    have := ih r (fun c hc => hl c (by simp [hc])) hr
    simp [List.takeWhile, List.dropWhile, ha, this.1, this.2]

theorem parseNatNum_digits (n : Nat) (rest : List Char)
    (hr : goodRestB rest = true) :
    parseNatNum (natDigits n ++ rest) = some (n, rest) := by
  have hall : ∀ c ∈ natDigits n, c.isDigit = true := natDigits_digits n
  have hr' : ∀ c, rest.head? = some c → c.isDigit = false := by
    cases rest with
    | nil => intro c hc; simp at hc
    | cons c0 r0 =>
      intro c hc
      simp at hc
      subst hc
      simpa [goodRestB] using hr
  obtain ⟨ht, hd⟩ := takeWhile_all_append Char.isDigit (natDigits n) rest hall hr'
  unfold parseNatNum
  rw [ht, hd]
  rcases hnd : natDigits n with _ | ⟨c, t⟩
  · exact absurd hnd (natDigits_ne_nil n)
  · have : readNat (c :: t) = n := by rw [← hnd]; exact readNat_natDigits n
    simp [this]

theorem expectChars_append : ∀ (pat r : List Char),
    expectChars pat (pat ++ r) = some r := by
  intro pat
  induction pat with
  | nil => intro r; rfl
  | cons p pat ih => intro r; simp [expectChars, ih]

theorem skipWs_cons_not (c : Char) (l : List Char) (h : isWs c = false) :
    skipWs (c :: l) = c :: l := by
  simp [skipWs, h]

theorem skipWs_append_ws : ∀ (a l : List Char), (∀ c ∈ a, isWs c = true) →
    skipWs (a ++ l) = skipWs l := by
  intro a
  induction a with
  | nil => intro l _; rfl
  | cons c a ih =>
    intro l h
    have hc : isWs c = true := h c (by simp)
    simp only [List.cons_append, skipWs, hc, if_pos]
    exact ih l (fun c hc => h c (by simp [hc]))

theorem ws_padL (n : Nat) : ∀ c ∈ padL n, isWs c = true := by
  intro c hc
  rw [List.eq_of_mem_replicate hc]
  rfl

theorem parseVal_skipWs (fuel : Nat) (a l : List Char)
    (h : ∀ c ∈ a, isWs c = true) :
    parseVal fuel (a ++ l) = parseVal fuel l := by
  cases fuel with
  | zero => rfl
  | succ fuel => simp only [parseVal, skipWs_append_ws a l h]

theorem parseMembers_skipWs (fuel : Nat) (a l : List Char)
    (acc : List (String × PyVal)) (h : ∀ c ∈ a, isWs c = true) :
    parseMembers fuel (a ++ l) acc = parseMembers fuel l acc := by
  cases fuel with
  | zero => rfl
  | succ fuel => simp only [parseMembers, skipWs_append_ws a l h]

/-! ## Round-trip infrastructure: string escapes -/

theorem hexVal_hexDig : ∀ m, m < 16 → hexVal (hexDig m) = m := by
  intro m h
  interval_cases m <;> decide

theorem parseStrBody_escape : ∀ (s rest : List Char),
    parseStrBody (escapeStr s ++ '"' :: rest) = some (s, rest) := by
  intro s
  induction s with
  | nil =>
    intro rest
    show parseStrBody ('"' :: rest) = some ([], rest)
    rw [parseStrBody.eq_def]; simp
  | cons c s ih =>
    intro rest
    have hes : escapeStr (c :: s) = escapeChar c ++ escapeStr s := rfl
    rw [hes]
    unfold escapeChar
    split_ifs with h1 h2 h3 h4 h5 h6 h7 h8
    · subst h1
      rw [parseStrBody.eq_def]
      simp [unescapeChar, ih]
    · subst h2
      rw [parseStrBody.eq_def]
      simp [unescapeChar, ih]
    · subst h3
      rw [parseStrBody.eq_def]
      simp [unescapeChar, ih]
    · subst h4
      rw [parseStrBody.eq_def]
      simp [unescapeChar, ih]
    · subst h5
      rw [parseStrBody.eq_def]
      simp [unescapeChar, ih]
    · have hc : c = Char.ofNat 8 := by rw [← h6, Char.ofNat_toNat]
      rw [parseStrBody.eq_def]
      simp [unescapeChar, ih, hc]
    · have hc : c = Char.ofNat 12 := by rw [← h7, Char.ofNat_toNat]
      rw [parseStrBody.eq_def]
      simp [unescapeChar, ih, hc]
    · simp only [List.cons_append, List.nil_append]
      rw [parseStrBody.eq_def]
      simp only [ih]
      have e1 : hexVal '0' = 0 := by decide
      have e2 : hexVal (hexDig (c.toNat / 16)) = c.toNat / 16 :=
        hexVal_hexDig _ (by omega)
      have e3 : hexVal (hexDig (c.toNat % 16)) = c.toNat % 16 :=
        hexVal_hexDig _ (by omega)
      simp only [e1, e2, e3]
      have e4 : c.toNat / 16 * 16 + c.toNat % 16 = c.toNat := by omega
      simp only [Nat.zero_mul, Nat.zero_add, e4, Char.ofNat_toNat]
      simp
    · simp only [List.cons_append, List.nil_append]
      rw [parseStrBody.eq_def]
      simp [h1, h2, ih]

/-! ## Round-trip infrastructure: structural lemmas about `PyVal` -/

theorem PyVal.indOn (P : PyVal → Prop)
    (hnone : P .none) (hbool : ∀ b, P (.bool b)) (hint : ∀ n, P (.int n))
    (hstr : ∀ s, P (.str s)) (hobj : ∀ t s, P (.obj t s))
    (hlist : ∀ xs, (∀ x ∈ xs, P x) → P (.list xs))
    (hdict : ∀ kvs, (∀ kv ∈ kvs, P kv.2) → P (.dict kvs)) :
    ∀ v, P v
  | .none => hnone
  | .bool b => hbool b
  | .int n => hint n
  | .str s => hstr s
  | .obj t s => hobj t s
  | .list xs => hlist xs (fun x hx =>
      PyVal.indOn P hnone hbool hint hstr hobj hlist hdict x)
  | .dict kvs => hdict kvs (fun kv hkv =>
      PyVal.indOn P hnone hbool hint hstr hobj hlist hdict kv.2)
termination_by v => sizeOf v
decreasing_by
  · have := List.sizeOf_lt_of_mem hx
    simp only [PyVal.list.sizeOf_spec]
    omega
  · have h1 := List.sizeOf_lt_of_mem hkv
    have h2 : sizeOf kv.2 < sizeOf kv := by
      obtain ⟨a, b⟩ := kv
      simp only [Prod.mk.sizeOf_spec]
      omega
    simp only [PyVal.dict.sizeOf_spec]
    omega

theorem firstBadL_cons_none {x : PyVal} {xs : List PyVal}
    (h : firstBadL (x :: xs) = Option.none) :
    firstBad x = Option.none ∧ firstBadL xs = Option.none := by
  unfold firstBadL at h
  cases hfb : firstBad x with
  | none => rw [hfb] at h; exact ⟨rfl, h⟩
  | some t => rw [hfb] at h; cases h

theorem firstBadD_cons_none {kv : String × PyVal} {kvs : List (String × PyVal)}
    (h : firstBadD (kv :: kvs) = Option.none) :
    firstBad kv.2 = Option.none ∧ firstBadD kvs = Option.none := by
  unfold firstBadD at h
  cases hfb : firstBad kv.2 with
  | none => rw [hfb] at h; exact ⟨rfl, h⟩
  | some t => rw [hfb] at h; cases h

theorem firstBadL_none_mem {xs : List PyVal} (h : firstBadL xs = Option.none) :
    ∀ x ∈ xs, firstBad x = Option.none := by
  induction xs with
  | nil => intro x hx; simp at hx
  | cons y ys ih =>
    obtain ⟨h1, h2⟩ := firstBadL_cons_none h
    intro x hx
    rcases List.mem_cons.mp hx with rfl | hx
    · exact h1
    · exact ih h2 x hx

theorem firstBadD_none_mem {kvs : List (String × PyVal)}
    (h : firstBadD kvs = Option.none) :
    ∀ kv ∈ kvs, firstBad kv.2 = Option.none := by
  induction kvs with
  | nil => intro kv hkv; simp at hkv
  | cons y ys ih =>
    obtain ⟨h1, h2⟩ := firstBadD_cons_none h
    intro kv hkv
    rcases List.mem_cons.mp hkv with rfl | hkv
    · exact h1
    · exact ih h2 kv hkv

theorem isDigit_ne (c : Char) (h : c.isDigit = true) (d : Char)
    (hd : d.isDigit = false) : c ≠ d := by
  intro he
  rw [he, hd] at h
  cases h

theorem isWs_of_digit (c : Char) (h : c.isDigit = true) : isWs c = false := by
  have h1 : c ≠ ' ' := isDigit_ne c h ' ' (by decide)
  have h2 : c ≠ '\n' := isDigit_ne c h '\n' (by decide)
  have h3 : c ≠ '\t' := isDigit_ne c h '\t' (by decide)
  have h4 : c ≠ '\r' := isDigit_ne c h '\r' (by decide)
  simp [isWs, h1, h2, h3, h4]

theorem serChars_head (ind : Nat) (v : PyVal)
    (hv : firstBad v = Option.none) :
    ∃ c t, serChars ind v = c :: t ∧ isWs c = false ∧ c ≠ ']' := by
  cases v with
  | none => exact ⟨'n', _, rfl, by decide, by decide⟩
  | bool b =>
    cases b with
    | true => exact ⟨'t', _, rfl, by decide, by decide⟩
    | false => exact ⟨'f', _, rfl, by decide, by decide⟩
  | int n =>
    show ∃ c t, intChars n = c :: t ∧ _
    unfold intChars
    by_cases h : n < 0
    · exact ⟨'-', _, by rw [if_pos h], by decide, by decide⟩
    · rw [if_neg h]
      rcases hnd : natDigits n.natAbs with _ | ⟨c, t⟩
      · exact absurd hnd (natDigits_ne_nil _)
      · have hc : c.isDigit = true := by
          apply natDigits_digits n.natAbs
          rw [hnd]; simp
        exact ⟨c, t, rfl, isWs_of_digit c hc, isDigit_ne c hc ']' (by decide)⟩
  | str s => exact ⟨'"', _, rfl, by decide, by decide⟩
  | list xs =>
    cases xs with
    | nil => exact ⟨'[', _, rfl, by decide, by decide⟩
    | cons x xs => exact ⟨'[', _, rfl, by decide, by decide⟩
  | dict kvs =>
    cases kvs with
    | nil => exact ⟨'{', _, rfl, by decide, by decide⟩
    | cons kv kvs => exact ⟨'{', _, rfl, by decide, by decide⟩
  | obj t s => cases hv

/-! ## Round-trip infrastructure: the parser fuel bound -/

theorem countL_le_serTail (ind : Nat) (xs : List PyVal)
    (hbad : firstBadL xs = Option.none)
    (ihm : ∀ x ∈ xs, firstBad x = Option.none →
      ∀ ind, countP x ≤ (serChars ind x).length) :
    countL xs ≤ (serTail ind xs).length + 1 := by
  induction xs with
  | nil => simp [countL, serTail]
  | cons x xs ih =>
    obtain ⟨hb1, hb2⟩ := firstBadL_cons_none hbad
    have h1 : countP x ≤ (serChars ind x).length := ihm x (by simp) hb1 ind
    have h2 : countL xs ≤ (serTail ind xs).length + 1 :=
      ih hb2 (fun y hy => ihm y (by simp [hy]))
    show 1 + countP x + countL xs ≤ _
    simp only [serTail, List.length_cons, List.length_append]
    omega

theorem countD_le_serDTail (ind : Nat) (kvs : List (String × PyVal))
    (hbad : firstBadD kvs = Option.none)
    (ihm : ∀ kv ∈ kvs, firstBad kv.2 = Option.none →
      ∀ ind, countP kv.2 ≤ (serChars ind kv.2).length) :
    countD kvs ≤ (serDTail ind kvs).length + 1 := by
  induction kvs with
  | nil => simp [countD, serDTail]
  | cons kv kvs ih =>
    obtain ⟨hb1, hb2⟩ := firstBadD_cons_none hbad
    have h1 : countP kv.2 ≤ (serChars ind kv.2).length := ihm kv (by simp) hb1 ind
    have h2 : countD kvs ≤ (serDTail ind kvs).length + 1 :=
      ih hb2 (fun y hy => ihm y (by simp [hy]))
    show 1 + countP kv.2 + countD kvs ≤ _
    simp only [serDTail, serMember, List.length_cons, List.length_append]
    omega

theorem countP_le_serChars :
    ∀ v : PyVal, firstBad v = Option.none →
      ∀ ind, countP v ≤ (serChars ind v).length := by
  intro v
  induction v using PyVal.indOn with
  | hnone => intro _ ind; simp [countP, serChars]
  | hbool b => intro _ ind; cases b <;> simp [countP, serChars]
  | hint n =>
    intro _ ind
    show countP (.int n) ≤ (intChars n).length
    have h1 : natDigits n.natAbs ≠ [] := natDigits_ne_nil _
    have h2 : 1 ≤ (natDigits n.natAbs).length := by
      rcases hnd : natDigits n.natAbs with _ | ⟨c, t⟩
      · exact absurd hnd h1
      · simp
    unfold intChars
    by_cases h : n < 0 <;> simp [h, countP] <;> omega
  | hstr s =>
    intro _ ind
    show countP (.str s) ≤ _
    simp [countP, serChars]
  | hobj t s => intro hbad ind; cases hbad
  | hlist xs ih =>
    intro hbad ind
    have hbadL : firstBadL xs = Option.none := hbad
    cases xs with
    | nil => simp [countP, countL, serChars]
    | cons x xs =>
      obtain ⟨hb1, hb2⟩ := firstBadL_cons_none hbadL
      have h1 : countP x ≤ (serChars (ind + 2) x).length :=
        ih x (by simp) hb1 (ind + 2)
      have h2 : countL xs ≤ (serTail (ind + 2) xs).length + 1 :=
        countL_le_serTail (ind + 2) xs hb2 (fun y hy => ih y (by simp [hy]))
      show 1 + countL (x :: xs) ≤ _
      simp only [countL, serChars, List.length_cons, List.length_append]
      omega
  | hdict kvs ih =>
    intro hbad ind
    have hbadD : firstBadD kvs = Option.none := hbad
    cases kvs with
    | nil => simp [countP, countD, serChars]
    | cons kv kvs =>
      obtain ⟨hb1, hb2⟩ := firstBadD_cons_none hbadD
      have h1 : countP kv.2 ≤ (serChars (ind + 2) kv.2).length :=
        ih kv (by simp) hb1 (ind + 2)
      have h2 : countD kvs ≤ (serDTail (ind + 2) kvs).length + 1 :=
        countD_le_serDTail (ind + 2) kvs hb2 (fun y hy => ih y (by simp [hy]))
      show 1 + countD (kv :: kvs) ≤ _
      simp only [countD, serChars, serMember, List.length_cons, List.length_append]
      omega

/-! ## Round-trip: arrays and objects -/

theorem goodRestB_cons (c : Char) (l : List Char) (h : c.isDigit = false) :
    goodRestB (c :: l) = true := by
  simp [goodRestB, h]

theorem ws_nl_pad (clo : Nat) : ∀ c ∈ '\n' :: padL clo, isWs c = true := by
  intro c hc
  rcases List.mem_cons.mp hc with rfl | hc
  · rfl
  · exact ws_padL clo c hc

theorem skipWs_nl_pad (clo : Nat) (c : Char) (l : List Char)
    (hc : isWs c = false) :
    skipWs ('\n' :: (padL clo ++ c :: l)) = c :: l := by
  rw [show '\n' :: (padL clo ++ c :: l) = ('\n' :: padL clo) ++ c :: l from rfl]
  rw [skipWs_append_ws _ _ (ws_nl_pad clo), skipWs_cons_not c l hc]

theorem parseItems_ser (ind clo : Nat) :
    ∀ (xs : List PyVal) (x : PyVal) (wsa rest : List Char) (acc : List PyVal)
      (fuel : Nat),
    (∀ y ∈ x :: xs, ParsesBack y) →
    (∀ c ∈ wsa, isWs c = true) →
    countL (x :: xs) < fuel →
    goodRestB rest = true →
    parseItems fuel
      (wsa ++ (serChars ind x ++ (serTail ind xs
        ++ '\n' :: (padL clo ++ ']' :: rest)))) acc
      = some (.list (acc ++ x :: xs), rest) := by
  intro xs
  induction xs with
  | nil =>
    intro x wsa rest acc fuel hpb hws hcnt hrest
    have hcnt' : countP x + 2 < fuel + 1 := by
      simp only [countL] at hcnt; omega
    obtain ⟨f, rfl⟩ : ∃ f, fuel = f + 1 := ⟨fuel - 1, by omega⟩
    simp only [parseItems, serTail, List.nil_append]
    rw [parseVal_skipWs f wsa _ hws]
    have hx := hpb x (by simp) f ind ('\n' :: (padL clo ++ ']' :: rest))
      (by omega) (goodRestB_cons '\n' _ (by decide))
    rw [hx]
    dsimp only []
    rw [skipWs_nl_pad clo ']' rest (by decide)]
    simp
  | cons y ys ih =>
    intro x wsa rest acc fuel hpb hws hcnt hrest
    have hcnt' : 1 + countP x + countL (y :: ys) < fuel := by
      simp only [countL] at hcnt ⊢; omega
    obtain ⟨f, rfl⟩ : ∃ f, fuel = f + 1 := ⟨fuel - 1, by omega⟩
    simp only [parseItems, serTail, List.cons_append, List.append_assoc]
    rw [parseVal_skipWs f wsa _ hws]
    have hx := hpb x (by simp) f ind
      (',' :: '\n' :: (padL ind ++ (serChars ind y ++ (serTail ind ys
        ++ '\n' :: (padL clo ++ ']' :: rest)))))
      (by simp only [countL] at hcnt; omega)
      (goodRestB_cons ',' _ (by decide))
    rw [hx]
    dsimp only []
    rw [skipWs_cons_not ',' _ (by decide)]
    dsimp only []
    rw [if_pos rfl]
    have hrec := ih y ('\n' :: padL ind) rest (acc ++ [x]) f
      (fun z hz => hpb z (by simp at hz ⊢; tauto))
      (ws_nl_pad ind)
      (by simp only [countL] at hcnt ⊢; omega)
      hrest
    simp only [List.cons_append, List.append_assoc] at hrec
    rw [hrec]
    simp

theorem parseVal_ws_cons (fuel : Nat) (c : Char) (l : List Char)
    (h : isWs c = true) : parseVal fuel (c :: l) = parseVal fuel l :=
  parseVal_skipWs fuel [c] l (by intro d hd; simp at hd; subst hd; exact h)

theorem parseMembers_ser (ind clo : Nat) :
    ∀ (kvs : List (String × PyVal)) (kv : String × PyVal)
      (wsa rest : List Char) (acc : List (String × PyVal)) (fuel : Nat),
    (∀ e ∈ kv :: kvs, ParsesBack e.2) →
    (∀ c ∈ wsa, isWs c = true) →
    countD (kv :: kvs) < fuel →
    goodRestB rest = true →
    parseMembers fuel
      (wsa ++ (serMember ind kv ++ (serDTail ind kvs
        ++ '\n' :: (padL clo ++ '}' :: rest)))) acc
      = some (.dict (acc ++ kv :: kvs), rest) := by
  intro kvs
  induction kvs with
  | nil =>
    intro kv wsa rest acc fuel hpb hws hcnt hrest
    obtain ⟨k, v⟩ := kv
    have hcnt' : countP v + 2 < fuel + 1 := by
      simp only [countD] at hcnt; omega
    obtain ⟨f, rfl⟩ : ∃ f, fuel = f + 1 := ⟨fuel - 1, by omega⟩
    have hv : ∀ rest', goodRestB rest' = true →
        parseVal f (serChars ind v ++ rest') = some (v, rest') :=
      fun rest' hr' => hpb (k, v) (by simp) f ind rest'
        (by show countP v < f; omega) hr'
    rw [show serMember ind (k, v)
        = '"' :: (escapeStr k.data ++ '"' :: ':' :: ' ' :: serChars ind v)
      from rfl]
    simp only [parseMembers, serDTail, List.nil_append, List.cons_append,
      List.append_assoc]
    rw [skipWs_append_ws wsa _ hws, skipWs_cons_not '"' _ (by decide)]
    dsimp only []
    rw [if_pos rfl]
    rw [parseStrBody_escape]
    dsimp only []
    rw [skipWs_cons_not ':' _ (by decide)]
    dsimp only []
    rw [if_pos rfl]
    rw [parseVal_ws_cons f ' ' _ (by decide)]
    rw [hv ('\n' :: (padL clo ++ '}' :: rest))
      (goodRestB_cons '\n' _ (by decide))]
    dsimp only []
    rw [skipWs_nl_pad clo '}' rest (by decide)]
    simp [show String.mk k.data = k from rfl]
  | cons e es ih =>
    intro kv wsa rest acc fuel hpb hws hcnt hrest
    obtain ⟨k, v⟩ := kv
    have hcnt' : 1 + countP v + countD (e :: es) < fuel := by
      simp only [countD] at hcnt ⊢; omega
    obtain ⟨f, rfl⟩ : ∃ f, fuel = f + 1 := ⟨fuel - 1, by omega⟩
    have hv : ∀ rest', goodRestB rest' = true →
        parseVal f (serChars ind v ++ rest') = some (v, rest') :=
      fun rest' hr' => hpb (k, v) (by simp) f ind rest'
        (by show countP v < f; simp only [countD] at hcnt; omega) hr'
    rw [show serMember ind (k, v)
        = '"' :: (escapeStr k.data ++ '"' :: ':' :: ' ' :: serChars ind v)
      from rfl]
    simp only [parseMembers, serDTail, List.cons_append, List.append_assoc]
    rw [skipWs_append_ws wsa _ hws, skipWs_cons_not '"' _ (by decide)]
    dsimp only []
    rw [if_pos rfl]
    rw [parseStrBody_escape]
    dsimp only []
    rw [skipWs_cons_not ':' _ (by decide)]
    dsimp only []
    rw [if_pos rfl]
    rw [parseVal_ws_cons f ' ' _ (by decide)]
    rw [hv _ (goodRestB_cons ',' _ (by decide))]
    dsimp only []
    rw [skipWs_cons_not ',' _ (by decide)]
    dsimp only []
    rw [if_pos rfl]
    have hrec := ih e ('\n' :: padL ind) rest (acc ++ [(k, v)]) f
      (fun z hz => hpb z (by simp at hz ⊢; tauto))
      (ws_nl_pad ind)
      (by simp only [countD] at hcnt ⊢; omega)
      hrest
    rw [List.append_assoc] at hrec
    exact hrec

/-! ## Round-trip: one lemma per value shape -/

theorem pbNone : ParsesBack PyVal.none := by
  intro fuel ind rest hf hr
  obtain ⟨f, rfl⟩ : ∃ f, fuel = f + 1 := ⟨fuel - 1, by omega⟩
  show parseVal (f + 1) (['n', 'u', 'l', 'l'] ++ rest) = some (.none, rest)
  simp only [parseVal, List.cons_append, List.nil_append]
  rw [skipWs_cons_not 'n' _ (by decide)]
  simp [expectChars]

theorem pbBool (b : Bool) : ParsesBack (.bool b) := by
  intro fuel ind rest hf hr
  obtain ⟨f, rfl⟩ : ∃ f, fuel = f + 1 := ⟨fuel - 1, by omega⟩
  cases b with
  | true =>
    show parseVal (f + 1) (['t', 'r', 'u', 'e'] ++ rest) = some (.bool true, rest)
    simp only [parseVal, List.cons_append, List.nil_append]
    rw [skipWs_cons_not 't' _ (by decide)]
    simp [expectChars]
  | false =>
    show parseVal (f + 1) (['f', 'a', 'l', 's', 'e'] ++ rest)
        = some (.bool false, rest)
    simp only [parseVal, List.cons_append, List.nil_append]
    rw [skipWs_cons_not 'f' _ (by decide)]
    simp [expectChars]

theorem pbInt (n : Int) : ParsesBack (.int n) := by
  intro fuel ind rest hf hr
  obtain ⟨f, rfl⟩ : ∃ f, fuel = f + 1 := ⟨fuel - 1, by omega⟩
  show parseVal (f + 1) (intChars n ++ rest) = some (.int n, rest)
  unfold intChars
  by_cases hneg : n < 0
  · rw [if_pos hneg]
    simp only [parseVal, List.cons_append]
    rw [skipWs_cons_not '-' _ (by decide)]
    dsimp only []
    rw [if_neg (by decide), if_neg (by decide), if_neg (by decide),
      if_neg (by decide), if_neg (by decide), if_neg (by decide), if_pos rfl]
    rw [parseNatNum_digits n.natAbs rest hr]
    dsimp only []
    have hcast : ((n.natAbs : Int)) = -n := by omega
    rw [show -(n.natAbs : Int) = n by omega]
  · rw [if_neg hneg]
    rcases hnd : natDigits n.natAbs with _ | ⟨c, t⟩
    · exact absurd hnd (natDigits_ne_nil _)
    have hc : c.isDigit = true := by
      apply natDigits_digits n.natAbs
      rw [hnd]; simp
    simp only [parseVal, List.cons_append]
    rw [skipWs_cons_not c _ (isWs_of_digit c hc)]
    dsimp only []
    rw [if_neg (isDigit_ne c hc '{' (by decide)),
      if_neg (isDigit_ne c hc '[' (by decide)),
      if_neg (isDigit_ne c hc '"' (by decide)),
      if_neg (isDigit_ne c hc 't' (by decide)),
      if_neg (isDigit_ne c hc 'f' (by decide)),
      if_neg (isDigit_ne c hc 'n' (by decide)),
      if_neg (isDigit_ne c hc '-' (by decide))]
    rw [show c :: (t ++ rest) = natDigits n.natAbs ++ rest from by rw [hnd]; rfl]
    rw [parseNatNum_digits n.natAbs rest hr]
    dsimp only []
    rw [show ((n.natAbs : Int)) = n from by omega]

theorem pbStr (s : String) : ParsesBack (.str s) := by
  intro fuel ind rest hf hr
  obtain ⟨f, rfl⟩ : ∃ f, fuel = f + 1 := ⟨fuel - 1, by omega⟩
  show parseVal (f + 1) (('"' :: (escapeStr s.data ++ ['"'])) ++ rest)
      = some (.str s, rest)
  simp only [parseVal, List.cons_append, List.append_assoc,
    List.singleton_append]
  rw [skipWs_cons_not '"' _ (by decide)]
  dsimp only []
  rw [if_neg (by decide), if_neg (by decide), if_pos rfl]
  rw [parseStrBody_escape]
  rfl

theorem pbListNil : ParsesBack (.list []) := by
  intro fuel ind rest hf hr
  obtain ⟨f, rfl⟩ : ∃ f, fuel = f + 1 := ⟨fuel - 1, by omega⟩
  show parseVal (f + 1) (['[', ']'] ++ rest) = some (.list [], rest)
  simp only [parseVal, List.cons_append, List.nil_append]
  rw [skipWs_cons_not '[' _ (by decide)]
  dsimp only []
  rw [if_neg (by decide), if_pos rfl]
  rw [skipWs_cons_not ']' _ (by decide)]
  simp

theorem pbDictNil : ParsesBack (.dict []) := by
  intro fuel ind rest hf hr
  obtain ⟨f, rfl⟩ : ∃ f, fuel = f + 1 := ⟨fuel - 1, by omega⟩
  show parseVal (f + 1) (['{', '}'] ++ rest) = some (.dict [], rest)
  simp only [parseVal, List.cons_append, List.nil_append]
  rw [skipWs_cons_not '{' _ (by decide)]
  dsimp only []
  rw [if_pos rfl]
  rw [skipWs_cons_not '}' _ (by decide)]
  simp

theorem pbListCons (x : PyVal) (xs : List PyVal)
    (hm : ∀ y ∈ x :: xs, ParsesBack y) (hbx : firstBad x = Option.none) :
    ParsesBack (.list (x :: xs)) := by
  intro fuel ind rest hf hr
  simp only [countP] at hf
  obtain ⟨f, rfl⟩ : ∃ f, fuel = f + 1 := ⟨fuel - 1, by omega⟩
  show parseVal (f + 1)
      (('[' :: '\n' :: (padL (ind + 2) ++ serChars (ind + 2) x
        ++ serTail (ind + 2) xs ++ '\n' :: (padL ind ++ [']']))) ++ rest)
      = some (.list (x :: xs), rest)
  simp only [parseVal, List.cons_append, List.append_assoc,
    List.singleton_append, List.nil_append]
  rw [skipWs_cons_not '[' _ (by decide)]
  dsimp only []
  rw [if_neg (by decide), if_pos rfl]
  obtain ⟨c0, t0, hser, hws0, hne0⟩ := serChars_head (ind + 2) x hbx
  rw [hser]
  simp only [List.cons_append, List.append_assoc, List.nil_append]
  rw [skipWs_nl_pad (ind + 2) c0 _ hws0]
  dsimp only []
  rw [if_neg hne0]
  rw [show c0 :: (t0 ++ (serTail (ind + 2) xs
      ++ '\n' :: (padL ind ++ ']' :: rest)))
    = serChars (ind + 2) x ++ (serTail (ind + 2) xs
      ++ '\n' :: (padL ind ++ ']' :: rest)) from by rw [hser]; simp]
  have := parseItems_ser (ind + 2) ind xs x [] rest [] (f)
    hm (by simp) (by omega) hr
  simp only [List.nil_append] at this
  rw [this]

theorem pbDictCons (kv : String × PyVal) (kvs : List (String × PyVal))
    (hm : ∀ e ∈ kv :: kvs, ParsesBack e.2) :
    ParsesBack (.dict (kv :: kvs)) := by
  intro fuel ind rest hf hr
  obtain ⟨k, v⟩ := kv
  simp only [countP] at hf
  obtain ⟨f, rfl⟩ : ∃ f, fuel = f + 1 := ⟨fuel - 1, by omega⟩
  show parseVal (f + 1)
      (('{' :: '\n' :: (padL (ind + 2) ++ serMember (ind + 2) (k, v)
        ++ serDTail (ind + 2) kvs ++ '\n' :: (padL ind ++ ['}']))) ++ rest)
      = some (.dict ((k, v) :: kvs), rest)
  rw [show serMember (ind + 2) (k, v)
      = '"' :: (escapeStr k.data ++ '"' :: ':' :: ' ' :: serChars (ind + 2) v)
    from rfl]
  simp only [parseVal, List.cons_append, List.append_assoc,
    List.singleton_append, List.nil_append]
  rw [skipWs_cons_not '{' _ (by decide)]
  dsimp only []
  rw [if_pos rfl]
  rw [skipWs_nl_pad (ind + 2) '"' _ (by decide)]
  dsimp only []
  rw [if_neg (by decide)]
  rw [show ('"' :: (escapeStr k.data ++ '"' :: ':' :: ' '
        :: (serChars (ind + 2) v ++ (serDTail (ind + 2) kvs
          ++ '\n' :: (padL ind ++ '}' :: rest)))))
      = serMember (ind + 2) (k, v) ++ (serDTail (ind + 2) kvs
          ++ '\n' :: (padL ind ++ '}' :: rest)) from by
    rw [show serMember (ind + 2) (k, v)
        = '"' :: (escapeStr k.data ++ '"' :: ':' :: ' '
          :: serChars (ind + 2) v) from rfl]
    simp]
  have := parseMembers_ser (ind + 2) ind kvs (k, v) [] rest [] (f)
    hm (by simp) (by omega) hr
  simp only [List.nil_append] at this
  rw [this]

theorem parsesBack_all : ∀ v, firstBad v = Option.none → ParsesBack v := by
  intro v
  induction v using PyVal.indOn with
  | hnone => intro _; exact pbNone
  | hbool b => intro _; exact pbBool b
  | hint n => intro _; exact pbInt n
  | hstr s => intro _; exact pbStr s
  | hobj t s => intro h; cases h
  | hlist xs ih =>
    intro h
    cases xs with
    | nil => exact pbListNil
    | cons x xs =>
      have hbL : firstBadL (x :: xs) = Option.none := h
      have hb := firstBadL_none_mem hbL
      exact pbListCons x xs (fun y hy => ih y hy (hb y hy))
        (firstBadL_cons_none hbL).1
  | hdict kvs ih =>
    intro h
    cases kvs with
    | nil => exact pbDictNil
    | cons kv kvs =>
      have hbD : firstBadD (kv :: kvs) = Option.none := h
      have hb := firstBadD_none_mem hbD
      exact pbDictCons kv kvs (fun e he => ih e he (hb e he))

/-- The central round-trip fact: whenever `json.dumps` succeeds, the generic
JSON parser reconstructs exactly the serialised value. -/
theorem jsonParse_json_dumps (v : PyVal) (s : String)
    (h : json_dumps v = Except.ok s) : jsonParse s = some v := by
  unfold json_dumps at h
  cases hfb : firstBad v with
  | some t => rw [hfb] at h; cases h
  | none =>
    rw [hfb] at h
    have hs : s = String.mk (serChars 0 v) := by
      cases h; rfl
    subst hs
    have hlen : countP v < (serChars 0 v).length + 1 := by
      have := countP_le_serChars v hfb 0
      omega
    have hpb := parsesBack_all v hfb ((serChars 0 v).length + 1) 0 []
      hlen (by decide)
    rw [List.append_nil] at hpb
    show (match parseVal ((serChars 0 v).length + 1) (serChars 0 v) with
      | some (v, rest) => if skipWs rest = [] then some v else Option.none
      | Option.none => Option.none) = some v
    rw [hpb]
    rfl

/-! ## Loader characterisation lemmas -/

theorem load_dir_success (fs : String → DirEntry)
    (sysm : List (String × String)) (d : String)
    (config : List (String × PyVal)) (m : ModuleAttrs)
    (h1 : (fs d).isDir = true)
    (h2 : (fs d).configJson = some (Except.ok config))
    (h3 : (alookup "name" config).isNone = false)
    (h4 : (alookup "description" config).isNone = false)
    (h5 : (alookup "version" config).isNone = false)
    (h6 : (fs d).agentPy = some (Except.ok m))
    (h7 : m.hasProcessCommand = true) :
    AgentLoader.load_agent_from_dir fs sysm d =
      (if m.hasInit then
        match m.initBehavior (mkDirAgent d config m) with
        | Except.ok _ =>
          ⟨Except.ok (mkDirAgent d config m),
            setMod sysm "agent_module" (d ++ "/agent.py"),
            [LoadEvent.setSysModule "agent_module" (d ++ "/agent.py"),
             LoadEvent.execModule (d ++ "/agent.py"),
             LoadEvent.initCalled (mkDirAgent d config m)]⟩
        | Except.error e =>
          ⟨Except.error ("Error loading agent module: " ++ e),
            setMod sysm "agent_module" (d ++ "/agent.py"),
            [LoadEvent.setSysModule "agent_module" (d ++ "/agent.py"),
             LoadEvent.execModule (d ++ "/agent.py"),
             LoadEvent.initCalled (mkDirAgent d config m)]⟩
      else
        ⟨Except.ok (mkDirAgent d config m),
          setMod sysm "agent_module" (d ++ "/agent.py"),
          [LoadEvent.setSysModule "agent_module" (d ++ "/agent.py"),
           LoadEvent.execModule (d ++ "/agent.py")]⟩) := by
  unfold AgentLoader.load_agent_from_dir
  simp only [h1, h2, h6, h3, h4, h5, h7]
  simp only [mkDirAgent]
  rfl

theorem load_dir_no_config (fs : String → DirEntry)
    (sysm : List (String × String)) (d : String)
    (h1 : (fs d).isDir = true)
    (h2 : (fs d).configJson = Option.none) :
    AgentLoader.load_agent_from_dir fs sysm d =
      ⟨Except.error ("Missing config.json in agent directory: " ++ d),
        sysm, []⟩ := by
  unfold AgentLoader.load_agent_from_dir
  simp only [h1, h2]
  rfl

theorem load_dir_indep (fs : String → DirEntry) (d : String)
    (sysm sysm' : List (String × String)) :
    (AgentLoader.load_agent_from_dir fs sysm d).result
        = (AgentLoader.load_agent_from_dir fs sysm' d).result
    ∧ (AgentLoader.load_agent_from_dir fs sysm d).events
        = (AgentLoader.load_agent_from_dir fs sysm' d).events := by
  unfold AgentLoader.load_agent_from_dir
  rcases fs d with ⟨isd, cfg, apy⟩
  cases isd
  · exact ⟨rfl, rfl⟩
  · dsimp only []
    cases cfg with
    | none => exact ⟨rfl, rfl⟩
    | some pc =>
      cases pc with
      | error u => exact ⟨rfl, rfl⟩
      | ok config =>
        dsimp only []
        by_cases h1 : (alookup "name" config).isNone
        · simp [h1]
        · simp only [h1]
          by_cases h2 : (alookup "description" config).isNone
          · simp [h2]
          · simp only [h2]
            by_cases h3 : (alookup "version" config).isNone
            · simp [h3]
            · simp only [h3]
              cases apy with
              | none => simp
              | some code =>
                cases code with
                | error e => simp
                | ok m =>
                  by_cases hpc : m.hasProcessCommand
                  · simp only [hpc]
                    by_cases hin : m.hasInit
                    · simp only [hin]
                      cases m.initBehavior (mkDirAgent d config m) with
                      | ok u => simp
                      | error e => simp
                    · simp [hin]
                  · simp [hpc]

theorem load_file_success (fsF : String → FileEntry)
    (sysm : List (String × String)) (p : String) (nm ds vr : PyVal)
    (m : ModuleAttrs)
    (h1 : (fsF p).isFile = true)
    (h2 : (fsF p).code = Except.ok m)
    (h3 : m.agentName = some nm)
    (h4 : m.agentDescription = some ds)
    (h5 : m.agentVersion = some vr)
    (h6 : m.hasProcessCommand = true) :
    AgentLoader.load_agent_from_file fsF sysm p =
      (if m.hasInit then
        match m.initBehavior (mkFileAgent p nm ds vr m) with
        | Except.ok _ =>
          ⟨Except.ok (mkFileAgent p nm ds vr m),
            setMod sysm (moduleNameOfFile p) p,
            [LoadEvent.setSysModule (moduleNameOfFile p) p,
             LoadEvent.execModule p,
             LoadEvent.initCalled (mkFileAgent p nm ds vr m)]⟩
        | Except.error e =>
          ⟨Except.error ("Error loading agent module: " ++ e),
            setMod sysm (moduleNameOfFile p) p,
            [LoadEvent.setSysModule (moduleNameOfFile p) p,
             LoadEvent.execModule p,
             LoadEvent.initCalled (mkFileAgent p nm ds vr m)]⟩
      else
        ⟨Except.ok (mkFileAgent p nm ds vr m),
          setMod sysm (moduleNameOfFile p) p,
          [LoadEvent.setSysModule (moduleNameOfFile p) p,
           LoadEvent.execModule p]⟩) := by
  unfold AgentLoader.load_agent_from_file
  simp only [h1, h2, h3, h4, h5, h6]
  rfl

theorem utils_load_file_success (fsF : String → FileEntry)
    (sysm : List (String × String)) (p : String) (nm ds vr : PyVal)
    (m : ModuleAttrs)
    (h1 : (fsF p).isFile = true)
    (h2 : (fsF p).code = Except.ok m)
    (h3 : m.agentName = some nm)
    (h4 : m.agentDescription = some ds)
    (h5 : m.agentVersion = some vr)
    (h6 : m.hasProcessCommand = true) :
    UtilsAgentLoader.load_agent_from_file fsF sysm p =
      ⟨Except.ok (mkUtilsFileAgent p nm ds vr),
        setMod sysm (moduleNameOfFile p) p,
        [LoadEvent.setSysModule (moduleNameOfFile p) p,
         LoadEvent.execModule p]⟩ := by
  unfold UtilsAgentLoader.load_agent_from_file
  simp only [h1, h2, h3, h4, h5, h6]
  rfl

theorem utils_load_file_no_init_events (fsF : String → FileEntry)
    (sysm : List (String × String)) (p : String) :
    ((UtilsAgentLoader.load_agent_from_file fsF sysm p).events.filter
      LoadEvent.isInitCall) = [] := by
  unfold UtilsAgentLoader.load_agent_from_file
  rcases fsF p with ⟨isf, code⟩
  cases isf
  · rfl
  · rw [if_neg (by simp)]
    cases code with
    | error e => rfl
    | ok m =>
      dsimp only []
      cases hn : m.agentName with
      | none => rfl
      | some nm =>
        dsimp only []
        cases hd : m.agentDescription with
        | none => rfl
        | some ds =>
          dsimp only []
          cases hv : m.agentVersion with
          | none => rfl
          | some vr =>
            dsimp only []
            by_cases hpc : m.hasProcessCommand
            · rw [if_neg (by simp [hpc])]
              rfl
            · rw [if_pos (by simp [hpc])]
              rfl

/-! ## Claim theorems: the dispatcher -/

/-- Claim C1: for every agent record carrying a `config` mapping with a
`name` entry and a `process_command` entry point, and for every command text
(including empty), `process_user_input` returns a string and never raises;
in particular, if the agent's `process_command` raises any exception, the
returned string is the failure text prefixed with
`Error processing command: ` rather than the exception propagating. -/
theorem dispatch_total_of_contract (agent : DAgent)
    (cfg : List (String × PyVal)) (nv : PyVal)
    (f : String → Except String PyVal)
    (hc : agent.config = some cfg)
    (hn : alookup "name" cfg = some nv)
    (hp : agent.process_command = some f)
    (input : String) :
    (∃ s : String, process_user_input agent input = Except.ok s)
    ∧ (∀ e, f input = Except.error e →
        process_user_input agent input
          = Except.ok ("Error processing command: " ++ e)) := by
  unfold process_user_input
  rw [hc]
  dsimp only []
  rw [hn]
  refine ⟨⟨processTryBody agent input, rfl⟩, ?_⟩
  intro e he
  unfold processTryBody
  rw [hp]
  dsimp only []
  rw [he]

/-- Witness for C1: a concrete agent whose `process_command` raises `boom`
on input `boom`: dispatch returns the prefixed error text. -/
theorem dispatch_total_of_contract_witness :
    process_user_input
        ⟨some [("name", PyVal.str "Demo")], some fun _ => Except.error "boom"⟩
        "boom"
      = Except.ok ("Error processing command: " ++ "boom") :=
  (dispatch_total_of_contract
    ⟨some [("name", PyVal.str "Demo")], some fun _ => Except.error "boom"⟩
    [("name", PyVal.str "Demo")] (PyVal.str "Demo")
    (fun _ => Except.error "boom") rfl rfl rfl "boom").2 "boom" rfl

/-- Counterexample to C10: an agent record with `config` and `name`
present but no `process_command` key: `process_user_input` RETURNS the
caught `KeyError` as error text rather than raising a lookup error — the
subscript `agent["process_command"]` sits inside the `try` block, so the
claim that a missing entry point raises to the caller is false. -/
theorem missing_entrypoint_returns_text_cex :
    process_user_input ⟨some [("name", PyVal.str "Demo")], Option.none⟩ "x"
        = Except.ok ("Error processing command: " ++ "\x27process_command\x27")
    ∧ (process_user_input ⟨some [("name", PyVal.str "Demo")],
        Option.none⟩ "x").isOk = true := ⟨rfl, rfl⟩

/-- Claim C10 as amended: `process_user_input` reads `agent['config']['name']`
before entering its `try` block, so a record lacking `config`, or whose
`config` lacks `name`, raises a `KeyError` to the caller; but a record
lacking only `process_command` does NOT raise — that lookup happens inside
the `try`, and the caught `KeyError` is returned as prefixed error text. -/
theorem contract_lookup_raises (agent : DAgent) (input : String) :
    (agent.config = Option.none →
      process_user_input agent input = Except.error (.keyError "config"))
    ∧ (∀ cfg, agent.config = some cfg → alookup "name" cfg = Option.none →
      process_user_input agent input = Except.error (.keyError "name"))
    ∧ (∀ cfg nv, agent.config = some cfg → alookup "name" cfg = some nv →
      agent.process_command = Option.none →
      process_user_input agent input
        = Except.ok ("Error processing command: " ++ "\x27process_command\x27")) := by
  refine ⟨?_, ?_, ?_⟩
  · intro h; unfold process_user_input; rw [h]
  · intro cfg hc hn
    unfold process_user_input
    rw [hc]
    dsimp only []
    rw [hn]
  · intro cfg nv hc hn hp
    unfold process_user_input
    rw [hc]
    dsimp only []
    rw [hn]
    unfold processTryBody
    rw [hp]

/-- Witness for the amended C10: the record `{}` (no `config`) raises
`KeyError('config')`. -/
theorem contract_lookup_raises_witness :
    process_user_input ⟨Option.none, Option.none⟩ "x"
      = Except.error (.keyError "config") :=
  (contract_lookup_raises ⟨Option.none, Option.none⟩ "x").1 rfl

/-- Claim C7: round-trip — when the entry point returns a structured mapping
or sequence that `json.dumps` accepts, `process_user_input` returns its
serialisation and the generic JSON parser reconstructs exactly the original
value; textual return values pass through unchanged; all other value types
are converted via their best-effort textual representation (`str()`). -/
theorem dispatch_roundtrip (agent : DAgent)
    (cfg : List (String × PyVal)) (nv : PyVal)
    (f : String → Except String PyVal)
    (hc : agent.config = some cfg)
    (hn : alookup "name" cfg = some nv)
    (hp : agent.process_command = some f)
    (input : String) :
    (∀ kvs s, f input = Except.ok (.dict kvs) →
      json_dumps (.dict kvs) = Except.ok s →
      process_user_input agent input = Except.ok s
        ∧ jsonParse s = some (.dict kvs))
    ∧ (∀ xs s, f input = Except.ok (.list xs) →
      json_dumps (.list xs) = Except.ok s →
      process_user_input agent input = Except.ok s
        ∧ jsonParse s = some (.list xs))
    ∧ (∀ s, f input = Except.ok (.str s) →
      process_user_input agent input = Except.ok s)
    ∧ (∀ n, f input = Except.ok (.int n) →
      process_user_input agent input = Except.ok (pyStr (.int n)))
    ∧ (∀ b, f input = Except.ok (.bool b) →
      process_user_input agent input = Except.ok (pyStr (.bool b)))
    ∧ (f input = Except.ok .none →
      process_user_input agent input = Except.ok (pyStr .none))
    ∧ (∀ ty r, f input = Except.ok (.obj ty r) →
      process_user_input agent input = Except.ok (pyStr (.obj ty r))) := by
  have hbase : process_user_input agent input
      = Except.ok (processTryBody agent input) := by
    unfold process_user_input
    rw [hc]
    dsimp only []
    rw [hn]
  refine ⟨?_, ?_, ?_, ?_, ?_, ?_, ?_⟩
  · intro kvs s hf hd
    refine ⟨?_, jsonParse_json_dumps _ s hd⟩
    rw [hbase]
    unfold processTryBody
    rw [hp]; dsimp only []; rw [hf]; dsimp only []; rw [hd]
  · intro xs s hf hd
    refine ⟨?_, jsonParse_json_dumps _ s hd⟩
    rw [hbase]
    unfold processTryBody
    rw [hp]; dsimp only []; rw [hf]; dsimp only []; rw [hd]
  · intro s hf
    rw [hbase]; unfold processTryBody
    rw [hp]; dsimp only []; rw [hf]
  · intro n hf
    rw [hbase]; unfold processTryBody
    rw [hp]; dsimp only []; rw [hf]
  · intro b hf
    rw [hbase]; unfold processTryBody
    rw [hp]; dsimp only []; rw [hf]
  · intro hf
    rw [hbase]; unfold processTryBody
    rw [hp]; dsimp only []; rw [hf]
  · intro ty r hf
    rw [hbase]; unfold processTryBody
    rw [hp]; dsimp only []; rw [hf]

/-- Witness for C7: the mapping of the specification,
`{"a": 1, "b": [2, 3]}`: dispatch returns its `json.dumps` text and the
parser reconstructs the identical mapping. -/
theorem dispatch_roundtrip_witness :
    process_user_input
        ⟨some [("name", PyVal.str "Demo")],
          some fun _ => Except.ok
            (.dict [("a", .int 1), ("b", .list [.int 2, .int 3])])⟩ "query"
      = Except.ok (String.mk (serChars 0
          (.dict [("a", .int 1), ("b", .list [.int 2, .int 3])])))
    ∧ jsonParse (String.mk (serChars 0
          (.dict [("a", .int 1), ("b", .list [.int 2, .int 3])])))
      = some (.dict [("a", .int 1), ("b", .list [.int 2, .int 3])]) :=
  (dispatch_roundtrip
    ⟨some [("name", PyVal.str "Demo")],
      some fun _ => Except.ok
        (.dict [("a", .int 1), ("b", .list [.int 2, .int 3])])⟩
    [("name", PyVal.str "Demo")] (PyVal.str "Demo")
    (fun _ => Except.ok
      (.dict [("a", .int 1), ("b", .list [.int 2, .int 3])]))
    rfl rfl rfl "query").1
    [("a", .int 1), ("b", .list [.int 2, .int 3])]
    (String.mk (serChars 0
      (.dict [("a", .int 1), ("b", .list [.int 2, .int 3])])))
    rfl rfl

/-! ## Claim theorems: the loaders -/

/-- Counterexample to C2: a directory agent that passes materialisation
and contract validation but whose `initialize` raises: the load does NOT
return the assembled record — the failure is re-raised by the surrounding
`except` as `ValueError("Error loading agent module: ...")` and the load
fails.  (Both loader variants behave identically; the directory loader of
`utils/agent_loader.py` is the same code.) -/
theorem initRaise_load_fails_cex :
    (AgentLoader.load_agent_from_dir fsDemo [] "/agents/init").result
        = Except.error ("Error loading agent module: " ++ "boom")
    ∧ (AgentLoader.load_agent_from_dir fsDemo [] "/agents/init").result.isOk
        = false := ⟨rfl, rfl⟩

/-- Claim C2 as amended: for a directory-form agent that passes materialisation
and contract validation but whose `initialize` hook raises with text `e`,
both `load_agent_from_dir` variants wrap the failure — but as a fatal
`ValueError("Error loading agent module: " ++ e)`: the load fails and no
agent record is returned.  The hook is still invoked on the fully
assembled record (last event), so the failure is initialisation, not
assembly. -/
theorem initRaise_wrapped_and_fatal (fs : String → DirEntry)
    (sysm : List (String × String)) (d : String)
    (config : List (String × PyVal)) (m : ModuleAttrs) (e : String)
    (h1 : (fs d).isDir = true)
    (h2 : (fs d).configJson = some (Except.ok config))
    (h3 : (alookup "name" config).isNone = false)
    (h4 : (alookup "description" config).isNone = false)
    (h5 : (alookup "version" config).isNone = false)
    (h6 : (fs d).agentPy = some (Except.ok m))
    (h7 : m.hasProcessCommand = true)
    (h8 : m.hasInit = true)
    (h9 : m.initBehavior (mkDirAgent d config m) = Except.error e) :
    (AgentLoader.load_agent_from_dir fs sysm d).result
        = Except.error ("Error loading agent module: " ++ e)
    ∧ (UtilsAgentLoader.load_agent_from_dir fs sysm d).result
        = Except.error ("Error loading agent module: " ++ e)
    ∧ (AgentLoader.load_agent_from_dir fs sysm d).events.getLast?
        = some (LoadEvent.initCalled (mkDirAgent d config m)) := by
  have heq := load_dir_success fs sysm d config m h1 h2 h3 h4 h5 h6 h7
  simp only [h8, if_true] at heq
  rw [h9] at heq
  dsimp only [] at heq
  refine ⟨?_, ?_, ?_⟩
  · rw [heq]
  · show (AgentLoader.load_agent_from_dir fs sysm d).result = _
    rw [heq]
  · rw [heq]
    rfl

/-- Witness for the amended C2. -/
theorem initRaise_wrapped_and_fatal_witness :
    (AgentLoader.load_agent_from_dir fsDemo [] "/agents/init").result
        = Except.error ("Error loading agent module: " ++ "boom")
    ∧ (UtilsAgentLoader.load_agent_from_dir fsDemo [] "/agents/init").result
        = Except.error ("Error loading agent module: " ++ "boom")
    ∧ (AgentLoader.load_agent_from_dir fsDemo [] "/agents/init").events.getLast?
        = some (LoadEvent.initCalled
            (mkDirAgent "/agents/init" cfgDemo attrsInitRaises)) :=
  initRaise_wrapped_and_fatal fsDemo [] "/agents/init" cfgDemo
    attrsInitRaises "boom" rfl rfl rfl rfl rfl rfl rfl rfl rfl

/-- Counterexample to C3: `utils.agent_loader.load_agent_from_file`
successfully loads a file-form agent whose source defines `initialize`,
yet never invokes the hook (zero invocations, not one): the per-load
invocation trace contains no `initialize` call. -/
theorem utilsFile_no_init_call_cex :
    (UtilsAgentLoader.load_agent_from_file fsfDemo []
        "/agents/solo.py").result
        = Except.ok (mkUtilsFileAgent "/agents/solo.py" (.str "demo")
            (.str "d") (.str "1.0.0"))
    ∧ attrsAllHooks.hasInit = true
    ∧ ((UtilsAgentLoader.load_agent_from_file fsfDemo []
        "/agents/solo.py").events.filter LoadEvent.isInitCall) = [] :=
  ⟨rfl, rfl, rfl⟩

/-- Claim C3 as amended: for `agent_loader.load_agent_from_dir`,
`agent_loader.load_agent_from_file` and (by identical code)
`utils.agent_loader.load_agent_from_dir`, a defined `initialize` hook is
invoked exactly once per successful load, with the assembled agent record
as its sole argument, after the record is constructed (it is the last
event, after module execution) and before the record is returned;
`utils.agent_loader.load_agent_from_file`, however, never invokes the
hook. -/
theorem init_called_once_per_load :
    (∀ (fs : String → DirEntry) (sysm : List (String × String)) (d : String)
      (config : List (String × PyVal)) (m : ModuleAttrs),
      (fs d).isDir = true →
      (fs d).configJson = some (Except.ok config) →
      (alookup "name" config).isNone = false →
      (alookup "description" config).isNone = false →
      (alookup "version" config).isNone = false →
      (fs d).agentPy = some (Except.ok m) →
      m.hasProcessCommand = true →
      m.hasInit = true →
      m.initBehavior (mkDirAgent d config m) = Except.ok () →
      (AgentLoader.load_agent_from_dir fs sysm d).result
          = Except.ok (mkDirAgent d config m)
      ∧ ((AgentLoader.load_agent_from_dir fs sysm d).events.filter
          LoadEvent.isInitCall)
          = [LoadEvent.initCalled (mkDirAgent d config m)]
      ∧ (AgentLoader.load_agent_from_dir fs sysm d).events.getLast?
          = some (LoadEvent.initCalled (mkDirAgent d config m)))
    ∧ (∀ (fsF : String → FileEntry) (sysm : List (String × String))
      (p : String) (nm ds vr : PyVal) (m : ModuleAttrs),
      (fsF p).isFile = true →
      (fsF p).code = Except.ok m →
      m.agentName = some nm →
      m.agentDescription = some ds →
      m.agentVersion = some vr →
      m.hasProcessCommand = true →
      m.hasInit = true →
      m.initBehavior (mkFileAgent p nm ds vr m) = Except.ok () →
      (AgentLoader.load_agent_from_file fsF sysm p).result
          = Except.ok (mkFileAgent p nm ds vr m)
      ∧ ((AgentLoader.load_agent_from_file fsF sysm p).events.filter
          LoadEvent.isInitCall)
          = [LoadEvent.initCalled (mkFileAgent p nm ds vr m)]
      ∧ (AgentLoader.load_agent_from_file fsF sysm p).events.getLast?
          = some (LoadEvent.initCalled (mkFileAgent p nm ds vr m)))
    ∧ (∀ (fsF : String → FileEntry) (sysm : List (String × String))
      (p : String),
      ((UtilsAgentLoader.load_agent_from_file fsF sysm p).events.filter
        LoadEvent.isInitCall) = []) := by
  refine ⟨?_, ?_, utils_load_file_no_init_events⟩
  · intro fs sysm d config m h1 h2 h3 h4 h5 h6 h7 h8 h9
    have heq := load_dir_success fs sysm d config m h1 h2 h3 h4 h5 h6 h7
    simp only [h8, if_true] at heq
    rw [h9] at heq
    dsimp only [] at heq
    rw [heq]
    refine ⟨rfl, ?_, rfl⟩
    simp [LoadEvent.isInitCall]
  · intro fsF sysm p nm ds vr m h1 h2 h3 h4 h5 h6 h7 h8
    have heq := load_file_success fsF sysm p nm ds vr m h1 h2 h3 h4 h5 h6
    simp only [h7, if_true] at heq
    rw [h8] at heq
    dsimp only [] at heq
    rw [heq]
    refine ⟨rfl, ?_, rfl⟩
    simp [LoadEvent.isInitCall]

/-- Witness for the amended C3: the directory agent with all hooks: one
`initialize` invocation, on the returned record, as the last load event. -/
theorem init_called_once_per_load_witness :
    (AgentLoader.load_agent_from_dir fsDemo [] "/agents/hooks").result
        = Except.ok (mkDirAgent "/agents/hooks" cfgDemo attrsAllHooks)
    ∧ ((AgentLoader.load_agent_from_dir fsDemo [] "/agents/hooks").events.filter
        LoadEvent.isInitCall)
        = [LoadEvent.initCalled (mkDirAgent "/agents/hooks" cfgDemo attrsAllHooks)]
    ∧ (AgentLoader.load_agent_from_dir fsDemo [] "/agents/hooks").events.getLast?
        = some (LoadEvent.initCalled
            (mkDirAgent "/agents/hooks" cfgDemo attrsAllHooks)) :=
  init_called_once_per_load.1 fsDemo [] "/agents/hooks" cfgDemo attrsAllHooks
    rfl rfl rfl rfl rfl rfl rfl rfl rfl

/-- Counterexample to C9: `utils.agent_loader.load_agent_from_file`
loads a source defining `cleanup` (and the other hooks), yet the returned
record carries none of them — presence on the record is NOT equivalent to
presence in the source for this loader. -/
theorem utilsFile_drops_hooks_cex :
    attrsAllHooks.hasCleanup = true
    ∧ (UtilsAgentLoader.load_agent_from_file fsfDemo []
        "/agents/solo.py").result
        = Except.ok (mkUtilsFileAgent "/agents/solo.py" (.str "demo")
            (.str "d") (.str "1.0.0"))
    ∧ (mkUtilsFileAgent "/agents/solo.py" (.str "demo") (.str "d")
        (.str "1.0.0")).cleanupFn = Option.none
    ∧ (mkUtilsFileAgent "/agents/solo.py" (.str "demo") (.str "d")
        (.str "1.0.0")).initFn = Option.none
    ∧ (mkUtilsFileAgent "/agents/solo.py" (.str "demo") (.str "d")
        (.str "1.0.0")).statusFn = Option.none :=
  ⟨rfl, rfl, rfl, rfl, rfl⟩

/-- Claim C9 as amended: for `agent_loader.load_agent_from_dir` (and the
identical `utils` directory loader) and `agent_loader.load_agent_from_file`,
each optional lifecycle capability (`initialize`, `cleanup`, `get_status`)
is present on the returned record exactly when the source defines the name,
and the absence of any or all of them never causes a load failure;
`utils.agent_loader.load_agent_from_file` records never carry the optional
capabilities, even when the source defines them (only the "only if"
direction holds there).  Absence never fails: the success of each load does
not depend on any optional name being present. -/
theorem optional_hooks_presence :
    (∀ (fs : String → DirEntry) (sysm : List (String × String)) (d : String)
      (config : List (String × PyVal)) (m : ModuleAttrs),
      (fs d).isDir = true →
      (fs d).configJson = some (Except.ok config) →
      (alookup "name" config).isNone = false →
      (alookup "description" config).isNone = false →
      (alookup "version" config).isNone = false →
      (fs d).agentPy = some (Except.ok m) →
      m.hasProcessCommand = true →
      (m.hasInit = true → m.initBehavior (mkDirAgent d config m) = Except.ok ()) →
      (AgentLoader.load_agent_from_dir fs sysm d).result
          = Except.ok (mkDirAgent d config m)
      ∧ (mkDirAgent d config m).initFn.isSome = m.hasInit
      ∧ (mkDirAgent d config m).cleanupFn.isSome = m.hasCleanup
      ∧ (mkDirAgent d config m).statusFn.isSome = m.hasGetStatus)
    ∧ (∀ (fsF : String → FileEntry) (sysm : List (String × String))
      (p : String) (nm ds vr : PyVal) (m : ModuleAttrs),
      (fsF p).isFile = true →
      (fsF p).code = Except.ok m →
      m.agentName = some nm →
      m.agentDescription = some ds →
      m.agentVersion = some vr →
      m.hasProcessCommand = true →
      (m.hasInit = true → m.initBehavior (mkFileAgent p nm ds vr m) = Except.ok ()) →
      (AgentLoader.load_agent_from_file fsF sysm p).result
          = Except.ok (mkFileAgent p nm ds vr m)
      ∧ (mkFileAgent p nm ds vr m).initFn.isSome = m.hasInit
      ∧ (mkFileAgent p nm ds vr m).cleanupFn.isSome = m.hasCleanup
      ∧ (mkFileAgent p nm ds vr m).statusFn.isSome = m.hasGetStatus)
    ∧ (∀ (fsF : String → FileEntry) (sysm : List (String × String))
      (p : String) (nm ds vr : PyVal) (m : ModuleAttrs),
      (fsF p).isFile = true →
      (fsF p).code = Except.ok m →
      m.agentName = some nm →
      m.agentDescription = some ds →
      m.agentVersion = some vr →
      m.hasProcessCommand = true →
      (UtilsAgentLoader.load_agent_from_file fsF sysm p).result
          = Except.ok (mkUtilsFileAgent p nm ds vr)
      ∧ (mkUtilsFileAgent p nm ds vr).initFn = Option.none
      ∧ (mkUtilsFileAgent p nm ds vr).cleanupFn = Option.none
      ∧ (mkUtilsFileAgent p nm ds vr).statusFn = Option.none) := by
  refine ⟨?_, ?_, ?_⟩
  · intro fs sysm d config m h1 h2 h3 h4 h5 h6 h7 h8
    have heq := load_dir_success fs sysm d config m h1 h2 h3 h4 h5 h6 h7
    have hres : (AgentLoader.load_agent_from_dir fs sysm d).result
        = Except.ok (mkDirAgent d config m) := by
      by_cases hin : m.hasInit
      · simp only [hin, if_true] at heq
        rw [h8 hin] at heq
        dsimp only [] at heq
        rw [heq]
      · simp only [hin, if_false, Bool.false_eq_true] at heq
        rw [heq]
    refine ⟨hres, ?_, ?_, ?_⟩
    · show (if m.hasInit then some (⟨d ++ "/agent.py", "initialize"⟩ : FuncRef)
        else Option.none).isSome = m.hasInit
      cases m.hasInit <;> simp
    · show (if m.hasCleanup then some (⟨d ++ "/agent.py", "cleanup"⟩ : FuncRef)
        else Option.none).isSome = m.hasCleanup
      cases m.hasCleanup <;> simp
    · show (if m.hasGetStatus then some (⟨d ++ "/agent.py", "get_status"⟩ : FuncRef)
        else Option.none).isSome = m.hasGetStatus
      cases m.hasGetStatus <;> simp
  · intro fsF sysm p nm ds vr m h1 h2 h3 h4 h5 h6 h7
    have heq := load_file_success fsF sysm p nm ds vr m h1 h2 h3 h4 h5 h6
    have hres : (AgentLoader.load_agent_from_file fsF sysm p).result
        = Except.ok (mkFileAgent p nm ds vr m) := by
      by_cases hin : m.hasInit
      · simp only [hin, if_true] at heq
        rw [h7 hin] at heq
        dsimp only [] at heq
        rw [heq]
      · simp only [hin, if_false, Bool.false_eq_true] at heq
        rw [heq]
    refine ⟨hres, ?_, ?_, ?_⟩
    · show (if m.hasInit then some (⟨p, "initialize"⟩ : FuncRef)
        else Option.none).isSome = m.hasInit
      cases m.hasInit <;> simp
    · show (if m.hasCleanup then some (⟨p, "cleanup"⟩ : FuncRef)
        else Option.none).isSome = m.hasCleanup
      cases m.hasCleanup <;> simp
    · show (if m.hasGetStatus then some (⟨p, "get_status"⟩ : FuncRef)
        else Option.none).isSome = m.hasGetStatus
      cases m.hasGetStatus <;> simp
  · intro fsF sysm p nm ds vr m h1 h2 h3 h4 h5 h6
    have heq := utils_load_file_success fsF sysm p nm ds vr m h1 h2 h3 h4 h5 h6
    exact ⟨by rw [heq], rfl, rfl, rfl⟩

/-- Witness for the amended C9: the all-hooks directory agent: record carries
all three; the plain agent (no hooks defined): load still succeeds. -/
theorem optional_hooks_presence_witness :
    ((AgentLoader.load_agent_from_dir fsDemo [] "/agents/hooks").result
        = Except.ok (mkDirAgent "/agents/hooks" cfgDemo attrsAllHooks)
      ∧ (mkDirAgent "/agents/hooks" cfgDemo attrsAllHooks).initFn.isSome
          = attrsAllHooks.hasInit
      ∧ (mkDirAgent "/agents/hooks" cfgDemo attrsAllHooks).cleanupFn.isSome
          = attrsAllHooks.hasCleanup
      ∧ (mkDirAgent "/agents/hooks" cfgDemo attrsAllHooks).statusFn.isSome
          = attrsAllHooks.hasGetStatus)
    ∧ ((AgentLoader.load_agent_from_dir fsDemo [] "/agents/good").result
        = Except.ok (mkDirAgent "/agents/good" cfgDemo attrsPlain)
      ∧ (mkDirAgent "/agents/good" cfgDemo attrsPlain).initFn.isSome
          = attrsPlain.hasInit
      ∧ (mkDirAgent "/agents/good" cfgDemo attrsPlain).cleanupFn.isSome
          = attrsPlain.hasCleanup
      ∧ (mkDirAgent "/agents/good" cfgDemo attrsPlain).statusFn.isSome
          = attrsPlain.hasGetStatus) :=
  ⟨optional_hooks_presence.1 fsDemo [] "/agents/hooks" cfgDemo attrsAllHooks
      rfl rfl rfl rfl rfl rfl rfl (fun _ => rfl),
    optional_hooks_presence.1 fsDemo [] "/agents/good" cfgDemo attrsPlain
      rfl rfl rfl rfl rfl rfl rfl (fun h => absurd h (by decide))⟩

/-- Counterexample to C5: a directory meeting the stated precondition of the
claim — parseable manifest with string `name`/`description`/
`version` and an `agent.py` defining `process_command` — on which
`load_agent_from_dir` nevertheless fails, because the same `agent.py` also
defines an `initialize` hook that raises. -/
theorem valid_manifest_load_fails_cex :
    (fsDemo "/agents/init").isDir = true
    ∧ (fsDemo "/agents/init").configJson = some (Except.ok cfgDemo)
    ∧ alookup "name" cfgDemo = some (.str "demo")
    ∧ alookup "description" cfgDemo = some (.str "d")
    ∧ alookup "version" cfgDemo = some (.str "1.0.0")
    ∧ (fsDemo "/agents/init").agentPy = some (Except.ok attrsInitRaises)
    ∧ attrsInitRaises.hasProcessCommand = true
    ∧ (AgentLoader.load_agent_from_dir fsDemo [] "/agents/init").result
        = Except.error ("Error loading agent module: " ++ "boom")
    ∧ (AgentLoader.load_agent_from_dir fsDemo [] "/agents/init").result.isOk
        = false :=
  ⟨rfl, rfl, rfl, rfl, rfl, rfl, rfl, rfl, rfl⟩

/-- Claim C5 as amended: for every directory with a parseable `config.json`
whose `name`/`description`/`version` are strings and an `agent.py` whose
execution defines `process_command` — provided a defined `initialize` hook
does not raise — `load_agent_from_dir` succeeds and returns the record
whose `config` is exactly the parsed manifest (so the identity triple
equals the manifest values), whose `dir` is the supplied path, and whose
`process_command` is the function defined by that directory\x27s
`agent.py`. -/
theorem load_dir_identity_matches (fs : String → DirEntry)
    (sysm : List (String × String)) (d : String)
    (config : List (String × PyVal)) (m : ModuleAttrs) (nm ds vr : String)
    (h1 : (fs d).isDir = true)
    (h2 : (fs d).configJson = some (Except.ok config))
    (h3 : alookup "name" config = some (.str nm))
    (h4 : alookup "description" config = some (.str ds))
    (h5 : alookup "version" config = some (.str vr))
    (h6 : (fs d).agentPy = some (Except.ok m))
    (h7 : m.hasProcessCommand = true)
    (h8 : m.hasInit = true → m.initBehavior (mkDirAgent d config m) = Except.ok ()) :
    (AgentLoader.load_agent_from_dir fs sysm d).result
        = Except.ok (mkDirAgent d config m)
    ∧ (mkDirAgent d config m).config = config
    ∧ alookup "name" (mkDirAgent d config m).config = some (.str nm)
    ∧ alookup "description" (mkDirAgent d config m).config = some (.str ds)
    ∧ alookup "version" (mkDirAgent d config m).config = some (.str vr)
    ∧ (mkDirAgent d config m).dir = d
    ∧ (mkDirAgent d config m).process_command
        = ⟨d ++ "/agent.py", "process_command"⟩ := by
  have h3' : (alookup "name" config).isNone = false := by rw [h3]; rfl
  have h4' : (alookup "description" config).isNone = false := by rw [h4]; rfl
  have h5' : (alookup "version" config).isNone = false := by rw [h5]; rfl
  have heq := load_dir_success fs sysm d config m h1 h2 h3' h4' h5' h6 h7
  have hres : (AgentLoader.load_agent_from_dir fs sysm d).result
      = Except.ok (mkDirAgent d config m) := by
    by_cases hin : m.hasInit
    · simp only [hin, if_true] at heq
      rw [h8 hin] at heq
      dsimp only [] at heq
      rw [heq]
    · simp only [hin, if_false, Bool.false_eq_true] at heq
      rw [heq]
  exact ⟨hres, rfl, h3, h4, h5, rfl, rfl⟩

/-- Witness for the amended C5. -/
theorem load_dir_identity_matches_witness :
    (AgentLoader.load_agent_from_dir fsDemo [] "/agents/good").result
        = Except.ok (mkDirAgent "/agents/good" cfgDemo attrsPlain)
    ∧ (mkDirAgent "/agents/good" cfgDemo attrsPlain).config = cfgDemo
    ∧ alookup "name" (mkDirAgent "/agents/good" cfgDemo attrsPlain).config
        = some (.str "demo")
    ∧ alookup "description"
        (mkDirAgent "/agents/good" cfgDemo attrsPlain).config
        = some (.str "d")
    ∧ alookup "version" (mkDirAgent "/agents/good" cfgDemo attrsPlain).config
        = some (.str "1.0.0")
    ∧ (mkDirAgent "/agents/good" cfgDemo attrsPlain).dir = "/agents/good"
    ∧ (mkDirAgent "/agents/good" cfgDemo attrsPlain).process_command
        = ⟨"/agents/good" ++ "/agent.py", "process_command"⟩ :=
  load_dir_identity_matches fsDemo [] "/agents/good" cfgDemo attrsPlain
    "demo" "d" "1.0.0" rfl rfl rfl rfl rfl rfl rfl
    (fun h => absurd h (by decide))

/-- Claim C6: for every directory path that exists but contains no
`config.json`, both `load_agent_from_dir` variants fail with the
`Missing config.json` `ValueError` before reading or executing any agent
code (empty event trace, `sys.modules` untouched), no record is produced,
and the registry accumulator of `load_all_agents` is left unchanged by that
directory — a failed load is all-or-nothing. -/
theorem missing_config_all_or_nothing (fs : String → DirEntry)
    (sysm : List (String × String)) (root nm : String)
    (h1 : (fs (WebInterface.joinPath root nm)).isDir = true)
    (h2 : (fs (WebInterface.joinPath root nm)).configJson = Option.none) :
    (UtilsAgentLoader.load_agent_from_dir fs sysm
        (WebInterface.joinPath root nm)).result
        = Except.error ("Missing config.json in agent directory: "
            ++ WebInterface.joinPath root nm)
    ∧ (UtilsAgentLoader.load_agent_from_dir fs sysm
        (WebInterface.joinPath root nm)).events = []
    ∧ (UtilsAgentLoader.load_agent_from_dir fs sysm
        (WebInterface.joinPath root nm)).sysm = sysm
    ∧ (∀ a : AgentRec,
        (UtilsAgentLoader.load_agent_from_dir fs sysm
          (WebInterface.joinPath root nm)).result ≠ Except.ok a)
    ∧ (∀ acc : List (String × AgentRec),
        WebInterface.loadAllStep fs root (acc, sysm) nm = (acc, sysm)) := by
  have heq := load_dir_no_config fs sysm (WebInterface.joinPath root nm) h1 h2
  have heq' : UtilsAgentLoader.load_agent_from_dir fs sysm
      (WebInterface.joinPath root nm)
      = ⟨Except.error ("Missing config.json in agent directory: "
          ++ WebInterface.joinPath root nm), sysm, []⟩ := heq
  refine ⟨by rw [heq'], by rw [heq'], by rw [heq'], ?_, ?_⟩
  · intro a ha
    rw [heq'] at ha
    exact Except.noConfusion ha
  · intro acc
    unfold WebInterface.loadAllStep
    rw [heq']

/-- Witness for C6. -/
theorem missing_config_all_or_nothing_witness :
    (UtilsAgentLoader.load_agent_from_dir fsDemo []
        (WebInterface.joinPath "/agents" "bad")).result
        = Except.error ("Missing config.json in agent directory: "
            ++ WebInterface.joinPath "/agents" "bad")
    ∧ (UtilsAgentLoader.load_agent_from_dir fsDemo []
        (WebInterface.joinPath "/agents" "bad")).events = []
    ∧ (UtilsAgentLoader.load_agent_from_dir fsDemo []
        (WebInterface.joinPath "/agents" "bad")).sysm = []
    ∧ WebInterface.loadAllStep fsDemo "/agents" ([], []) "bad" = ([], []) :=
  ⟨(missing_config_all_or_nothing fsDemo [] "/agents" "bad" rfl rfl).1,
    (missing_config_all_or_nothing fsDemo [] "/agents" "bad" rfl rfl).2.1,
    (missing_config_all_or_nothing fsDemo [] "/agents" "bad" rfl rfl).2.2.1,
    (missing_config_all_or_nothing fsDemo [] "/agents" "bad"
      rfl rfl).2.2.2.2 []⟩

/-- Folding the loader over a list of subdirectory names collects exactly
the successful loads, independently of the threaded `sys.modules` state. -/
theorem loadAll_fold (fs : String → DirEntry) (root : String) :
    ∀ (l : List String) (acc : List (String × AgentRec))
      (sysm : List (String × String)),
    (l.foldl (WebInterface.loadAllStep fs root) (acc, sysm)).1
      = acc ++ l.filterMap (fun nm =>
          match (UtilsAgentLoader.load_agent_from_dir fs []
              (WebInterface.joinPath root nm)).result with
          | Except.ok a => some (nm, a)
          | Except.error _ => Option.none) := by
  intro l
  induction l with
  | nil => intro acc sysm; simp
  | cons nm l ih =>
    intro acc sysm
    rw [List.foldl_cons, List.filterMap_cons]
    have hind := (load_dir_indep fs (WebInterface.joinPath root nm) sysm []).1
    cases hres : (UtilsAgentLoader.load_agent_from_dir fs sysm
        (WebInterface.joinPath root nm)).result with
    | ok a =>
      have hres0 : (UtilsAgentLoader.load_agent_from_dir fs []
          (WebInterface.joinPath root nm)).result = Except.ok a :=
        hind.symm.trans hres
      have hstep : WebInterface.loadAllStep fs root (acc, sysm) nm
          = (acc ++ [(nm, a)],
            (UtilsAgentLoader.load_agent_from_dir fs sysm
              (WebInterface.joinPath root nm)).sysm) := by
        unfold WebInterface.loadAllStep
        dsimp only []
        rw [hres]
      rw [hstep, ih]
      rw [hres0]
      simp
    | error e =>
      have hres0 : (UtilsAgentLoader.load_agent_from_dir fs []
          (WebInterface.joinPath root nm)).result = Except.error e :=
        hind.symm.trans hres
      have hstep : WebInterface.loadAllStep fs root (acc, sysm) nm
          = (acc,
            (UtilsAgentLoader.load_agent_from_dir fs sysm
              (WebInterface.joinPath root nm)).sysm) := by
        unfold WebInterface.loadAllStep
        dsimp only []
        rw [hres]
      rw [hstep, ih]
      rw [hres0]

/-- Claim C8: `load_all_agents` over any agents root: every immediate
subdirectory is attempted as a directory-form agent; one failing
subdirectory neither raises nor prevents the rest from loading — the
result mapping holds exactly the subdirectories whose loads succeed, each
failing subdirectory simply absent. -/
theorem load_all_isolates_failures (fs : String → DirEntry) (root : String)
    (entries : List String) (sysm : List (String × String)) :
    (WebInterface.load_all_agents fs true root entries sysm).1
      = (entries.filter
          (fun nm => (fs (WebInterface.joinPath root nm)).isDir)).filterMap
          (fun nm =>
            match (UtilsAgentLoader.load_agent_from_dir fs []
                (WebInterface.joinPath root nm)).result with
            | Except.ok a => some (nm, a)
            | Except.error _ => Option.none) := by
  unfold WebInterface.load_all_agents
  rw [if_neg (by simp)]
  rw [loadAll_fold fs root _ [] sysm]
  simp

/-- Any record successfully returned by the directory loader carries the
`process_command` defined by its own directory, and its load executed that
module afresh. -/
theorem load_dir_ok_shape (fs : String → DirEntry)
    (sysm : List (String × String)) (d : String) (a : AgentRec)
    (h : (AgentLoader.load_agent_from_dir fs sysm d).result = Except.ok a) :
    a.process_command = ⟨d ++ "/agent.py", "process_command"⟩
    ∧ LoadEvent.execModule (d ++ "/agent.py")
        ∈ (AgentLoader.load_agent_from_dir fs sysm d).events := by
  revert h
  unfold AgentLoader.load_agent_from_dir
  rcases fs d with ⟨isd, cfg, apy⟩
  cases isd
  · intro h; simp at h
  · dsimp only []
    cases cfg with
    | none => intro h; simp at h
    | some pc =>
      cases pc with
      | error u => intro h; simp at h
      | ok config =>
        dsimp only []
        by_cases h1 : (alookup "name" config).isNone
        · simp [h1]
        · simp only [h1]
          by_cases h2 : (alookup "description" config).isNone
          · simp [h2]
          · simp only [h2]
            by_cases h3 : (alookup "version" config).isNone
            · simp [h3]
            · simp only [h3]
              cases apy with
              | none => intro h; simp at h
              | some code =>
                cases code with
                | error e => intro h; simp at h
                | ok m =>
                  by_cases hpc : m.hasProcessCommand
                  · simp only [hpc]
                    by_cases hin : m.hasInit
                    · simp only [hin]
                      cases hib : m.initBehavior (mkDirAgent d config m) with
                      | ok u =>
                        intro h
                        simp at h
                        subst h
                        exact ⟨rfl, by simp⟩
                      | error e =>
                        intro h
                        simp at h
                    · simp only [hin]
                      intro h
                      simp at h
                      subst h
                      exact ⟨rfl, by simp⟩
                  · simp [hpc]

/-- Counterexample to C4: two distinct, successfully loading agent
directories (whose code files necessarily share the basename `agent.py`):
both loads materialise under the SAME synthetic module name
`agent_module`, and the second load overwrites the binding of the first in
`sys.modules` — the module identity is a fixed constant, not
collision-avoiding. -/
theorem module_identity_collides_cex :
    ("/agents/good" : String) ≠ "/agents/hooks"
    ∧ (AgentLoader.load_agent_from_dir fsDemo [] "/agents/good").result
        = Except.ok (mkDirAgent "/agents/good" cfgDemo attrsPlain)
    ∧ (AgentLoader.load_agent_from_dir fsDemo
        (AgentLoader.load_agent_from_dir fsDemo [] "/agents/good").sysm
        "/agents/hooks").result
        = Except.ok (mkDirAgent "/agents/hooks" cfgDemo attrsAllHooks)
    ∧ (AgentLoader.load_agent_from_dir fsDemo [] "/agents/good").sysm
        = [("agent_module", "/agents/good/agent.py")]
    ∧ (AgentLoader.load_agent_from_dir fsDemo
        (AgentLoader.load_agent_from_dir fsDemo [] "/agents/good").sysm
        "/agents/hooks").sysm
        = [("agent_module", "/agents/hooks/agent.py")] :=
  ⟨by decide, rfl, rfl, rfl, rfl⟩

/-- Claim C4 as amended: although the directory loader always uses the fixed
module name `agent_module` (so `sys.modules` bindings of earlier loads are
overwritten), no record-level aliasing occurs and nothing is cached: a
load\u2019s outcome and event trace are entirely independent of the incoming
`sys.modules` state, every load that reaches materialisation re-executes
the code unit of its own path, and a successfully returned record\u2019s
`process_command` is the function defined by the `agent.py` of its own
path. -/
theorem fresh_materialization_no_aliasing :
    (∀ (fs : String → DirEntry) (d : String)
      (sysm sysm' : List (String × String)),
      (AgentLoader.load_agent_from_dir fs sysm d).result
          = (AgentLoader.load_agent_from_dir fs sysm' d).result
      ∧ (AgentLoader.load_agent_from_dir fs sysm d).events
          = (AgentLoader.load_agent_from_dir fs sysm' d).events)
    ∧ (∀ (fs : String → DirEntry) (sysm : List (String × String))
      (d : String) (a : AgentRec),
      (AgentLoader.load_agent_from_dir fs sysm d).result = Except.ok a →
      a.process_command = ⟨d ++ "/agent.py", "process_command"⟩
      ∧ LoadEvent.execModule (d ++ "/agent.py")
          ∈ (AgentLoader.load_agent_from_dir fs sysm d).events) :=
  ⟨load_dir_indep, load_dir_ok_shape⟩

/-- Witness for the amended C4. -/
theorem fresh_materialization_no_aliasing_witness :
    (mkDirAgent "/agents/good" cfgDemo attrsPlain).process_command
        = ⟨"/agents/good" ++ "/agent.py", "process_command"⟩
    ∧ LoadEvent.execModule ("/agents/good" ++ "/agent.py")
        ∈ (AgentLoader.load_agent_from_dir fsDemo [] "/agents/good").events :=
  fresh_materialization_no_aliasing.2 fsDemo [] "/agents/good"
    (mkDirAgent "/agents/good" cfgDemo attrsPlain) rfl
